import Mathlib

/-!
# SnakeJS: a shallow embedding of `script.js`

The game keeps its state in module-level variables and changes it from four
kinds of callbacks: the 200ms tick (`render`), the 1000ms clock, key presses
(`handleKeyDown`) and the start / restart / resize handlers.  The embedding
threads the variables through a `State` record, one Lean function per source
function.

What sits outside the record:
* the DOM (`blocks`, class toggling, modals, `innerText`) is write-only for the
  game logic and is left out;
* the measured board size `Math.floor(board.clientWidth - paddingX)` and
  `Math.floor(board.clientHeight - paddingY)` are inputs `w h : Int` of
  `computeGridSize`;
* `Math.random` is an input: `rnd i` is the cell
  `(Math.floor(Math.random() * rows), Math.floor(Math.random() * cols))` drawn by
  the `i`-th iteration (counted from 0) of the loop in `placeRandomFood`.

Numbers are JavaScript doubles.  Coordinates, grid sizes and the score hold
integers that the arithmetic on them (`+ 1`, `- 1`, `+= 10`, floor division)
keeps exact below `2^53`; they are modelled by `Int` and `Nat`.  Where a number
is read from or written to a string (`Number(str)`, `String(n)`, the clock) the
rounding to a double is part of the model: `toDouble?`, `numberToString?`,
`numberOfString`.  A result of `none` from one of these means that the input is
outside the part of the conversion that is modelled, never a value.
-/

namespace SnakeJS

/-- A grid cell `{ x, y }`: `x` is the row, `y` the column. -/
structure Cell where
  x : Int
  y : Int
deriving DecidableEq, Repr

/-- The four string values `direction` and `nextDirection` ever hold. -/
inductive Direction where
  | left
  | right
  | up
  | down
deriving DecidableEq, Repr

/-- The integer `n` rounded to the nearest double, ties to the even mantissa, for
`n` below `2^54`: up to `2^53` every integer is a double, and from there to
`2^54` the doubles are the even integers, with an odd `n` half way between two
of them and rounded to the one that is a multiple of 4. -/
def toDouble? (n : Nat) : Option Nat :=
  if n ≤ 2 ^ 53 then some n
  else if n < 2 ^ 54 then
    some (if n % 2 = 0 then n else if n % 4 = 3 then n + 1 else n - 1)
  else none

/-- The conversion `String(n)` (lines 153, 172) of a double holding the
non-negative integer `n`: the decimal numeral for `n` up to `2^53`, and the
exponent form `"de+21"` for `n = d * 10^21` with a single digit `d`, where one
significant digit is enough and the decimal point would sit after more than 21
digits.  Other values are not modelled. -/
def numberToString? (n : Nat) : Option String :=
  if n ≤ 2 ^ 53 then some (Nat.repr n)
  else if n % 10 ^ 21 = 0 ∧ n / 10 ^ 21 ≤ 9 then some (Nat.repr (n / 10 ^ 21) ++ "e+21")
  else none

/-- A value of the variable `highScore`: `NaN`, an infinity, a double holding the
integer `n`, or a double that is not an integer and lies strictly between the
integers `lo` and `lo + 1` (its exact value is not tracked; `-0` is `int 0`). -/
inductive JsNum where
  | nan
  | negInf
  | posInf
  | int (n : Int)
  | frac (lo : Int)
deriving DecidableEq, Repr

/-- The `localStorage` item `"highScore"`: absent (`getItem` gives `null`), a
known string, or a string written by `String(n)` for an `n` on which
`numberToString?` is not modelled. -/
inductive Stored where
  | absent
  | text (str : String)
  | unmodelled
deriving DecidableEq, Repr

/-- The comparison `score > highScore` (line 170) for an integer score: false
against `NaN` and `Infinity`, and against a non-integer between `lo` and
`lo + 1` true exactly when the score is above `lo`. -/
def scoreGt (score : Nat) : JsNum → Bool
  | JsNum.nan => false
  | JsNum.negInf => true
  | JsNum.posInf => false
  | JsNum.int n => decide ((score : Int) > n)
  | JsNum.frac lo => decide ((score : Int) > lo)

def MIN_CELL : Int := 30
def MAX_CELL : Int := 70
def DEFAULT_CELL : Int := 50

/-- The module-level variables of `script.js` (lines 16-31).  `intervalId` and
`timerIntervalId` are `true` when they hold a live timer handle and `false` when
they are `null`; `stored` is the `localStorage` item `"highScore"`. -/
structure State where
  cellSize : Int
  cols : Int
  rows : Int
  intervalId : Bool
  timerIntervalId : Bool
  highScore : JsNum
  stored : Stored
  score : Nat
  time : String
  snake : List Cell
  direction : Direction
  nextDirection : Direction
  food : Cell
deriving DecidableEq

/-- Source function `computeGridSize` (lines 39-69) on the measured board size `w`, `h`. -/
def computeGridSize (s : State) (w h : Int) : State :=
  let usableWidth := max 100 w
  let usableHeight := max 100 h
  let approxCols := max 6 (usableWidth / DEFAULT_CELL)
  let approxCols := if approxCols = 0 then 6 else approxCols
  let computedCell := usableWidth / approxCols
  let computedCell := max MIN_CELL (min MAX_CELL computedCell)
  { s with
    cols := max 6 (usableWidth / computedCell)
    rows := max 8 (usableHeight / computedCell)
    cellSize := computedCell }

/-- The test `snake.some((s) => s.x === c.x && s.y === c.y)` (lines 100, 197). -/
def onSnake (snake : List Cell) (c : Cell) : Bool :=
  snake.any fun s => s.x == c.x && s.y == c.y

/-- The `do ... while` loop of `placeRandomFood` (lines 95-100), started with the
counter at `tries`.  It returns the cell left in `food` and the final value of
`tries`; `none` only when the fuel runs out before the loop exits. -/
def placeRandomFoodLoop (snake : List Cell) (rnd : Nat → Cell) :
    Nat → Nat → Option (Cell × Nat)
  | 0, _ => none
  | fuel + 1, tries =>
    let food := rnd tries
    let tries := tries + 1
    if tries > 2000 then some (food, tries)
    else if onSnake snake food then placeRandomFoodLoop snake rnd fuel tries
    else some (food, tries)

/-- Source function `placeRandomFood` (lines 93-104); the `blocks` marking is left out. -/
def placeRandomFood (s : State) (rnd : Nat → Cell) : Option State :=
  (placeRandomFoodLoop s.snake rnd 2001 0).map fun r => { s with food := r.1 }

/-- Source function `startGame` (lines 113-156); the two `setInterval` calls leave both handles
live. -/
def startGame (s : State) (w h : Int) (rnd : Nat → Cell) : Option State :=
  let s := computeGridSize s w h
  let startRow := s.rows / 3
  let startCol := s.cols / 2
  let s := { s with
    snake := [{ x := startRow, y := startCol }, { x := startRow - 1, y := startCol }]
    direction := Direction.down
    nextDirection := Direction.down
    score := 0
    time := "00:00" }
  (placeRandomFood s rnd).map fun s => { s with intervalId := true, timerIntervalId := true }

/-- Source function `endGame` (lines 158-175). -/
def endGame (s : State) : State :=
  let s := { s with intervalId := false, timerIntervalId := false }
  if scoreGt s.score s.highScore then
    { s with
      highScore := JsNum.int (s.score : Int)
      stored :=
        match numberToString? s.score with
        | some str => Stored.text str
        | none => Stored.unmodelled }
  else s

/-- Lines 185-188 of `render`: the head moved one cell in direction `d`. -/
def moveHead (d : Direction) (head : Cell) : Cell :=
  match d with
  | Direction.left => { head with y := head.y - 1 }
  | Direction.right => { head with y := head.y + 1 }
  | Direction.up => { head with x := head.x - 1 }
  | Direction.down => { head with x := head.x + 1 }

/-- Source function `render` (lines 179-229), one game tick.  `none` when `snake[0]` is
`undefined` (the empty snake, where line 184 throws) or when `placeRandomFood`
runs out of fuel. -/
def render (s : State) (rnd : Nat → Cell) : Option State :=
  let s := { s with direction := s.nextDirection }
  match s.snake with
  | [] => none
  | seg0 :: _ =>
    let head := moveHead s.direction { x := seg0.x, y := seg0.y }
    if head.x < 0 || head.x >= s.rows || head.y < 0 || head.y >= s.cols then
      some (endGame s)
    else if onSnake s.snake head then
      some (endGame s)
    else
      let ateFood := head.x == s.food.x && head.y == s.food.y
      if ateFood then
        placeRandomFood { s with score := s.score + 10, snake := head :: s.snake } rnd
      else
        some { s with snake := head :: s.snake.dropLast }

/-- Source function `handleKeyDown` (lines 233-244) on the key string `e.key`. -/
def handleKeyDown (s : State) (k : String) : State :=
  if (k = "ArrowLeft" || k = "a" || k = "A") && s.direction != Direction.right then
    { s with nextDirection := Direction.left }
  else if (k = "ArrowRight" || k = "d" || k = "D") && s.direction != Direction.left then
    { s with nextDirection := Direction.right }
  else if (k = "ArrowUp" || k = "w" || k = "W") && s.direction != Direction.down then
    { s with nextDirection := Direction.up }
  else if (k = "ArrowDown" || k = "s" || k = "S") && s.direction != Direction.up then
    { s with nextDirection := Direction.down }
  else s

/-- The array `time.split(":")` (line 150), on the characters of `time`. -/
def splitColon : List Char → List (List Char)
  | [] => [[]]
  | c :: cs =>
    if c = ':' then [] :: splitColon cs
    else
      match splitColon cs with
      | [] => [[c]]
      | p :: ps => (c :: p) :: ps

/-- The value of a string of decimal digits, most significant digit first. -/
def digitsValue (cs : List Char) : Nat :=
  cs.foldl (fun n c => 10 * n + (c.toNat - 48)) 0

/-- The conversion `Number(str)` (line 150) on the strings it is modelled for: a
possibly empty run of decimal digits denoting an integer below `2^54`, which is
read as the double nearest to that integer.  Every other string gives `none`. -/
def jsNumber? (cs : List Char) : Option Nat :=
  if cs.all Char.isDigit then toDouble? (digitsValue cs) else none

/-- The call `str.padStart(2, "0")` (line 153). -/
def padStart2 (cs : List Char) : List Char :=
  List.replicate (2 - cs.length) '0' ++ cs

/-- The time string of `m` minutes and `sec` seconds: the two decimal numerals,
each padded to two characters, around a colon. -/
def formatTime (m sec : Nat) : String :=
  String.mk (padStart2 (Nat.repr m).toList ++ ':' :: padStart2 (Nat.repr sec).toList)

/-- The string built on line 153 from the doubles `m` and `sec`, where
`numberToString?` is modelled for both. -/
def timeString? (m sec : Nat) : Option String :=
  match numberToString? m, numberToString? sec with
  | some mStr, some sStr => some (String.mk (padStart2 mStr.toList ++ ':' :: padStart2 sStr.toList))
  | _, _ => none

/-- The clock callback of `startGame` (lines 149-155); `s++` and `m++` round
to a double.  `none` when `time` has fewer than two `:`-separated fields or a
conversion is outside what is modelled. -/
def clockTick (s : State) : Option State :=
  match splitColon s.time.toList with
  | mStr :: sStr :: _ =>
    match jsNumber? mStr, jsNumber? sStr with
    | some m, some sec =>
      match toDouble? (sec + 1) with
      | some sec1 =>
        if sec1 ≥ 60 then
          match toDouble? (m + 1) with
          | some m1 => (timeString? m1 0).map fun tm => { s with time := tm }
          | none => none
        else (timeString? m sec1).map fun tm => { s with time := tm }
      | none => none
    | _, _ => none
  | _ => none

/-- Source function `restart` (lines 248-258); the board is measured once by its
own `computeGridSize` call (`w`, `h`) and once more inside `startGame`
(`w2`, `h2`). -/
def restart (s : State) (w h w2 h2 : Int) (rnd : Nat → Cell) : Option State :=
  let s := { s with intervalId := false, timerIntervalId := false }
  let s := computeGridSize s w h
  startGame s w2 h2 rnd

/-- The resize listener (lines 265-269). -/
def onResize (s : State) : State :=
  if s.intervalId then endGame s else s

/-- What can happen during a session: a key press, a firing of the tick timer
with the random samples it would draw, a firing of the clock timer, a window
resize. -/
inductive Event where
  | key (k : String)
  | tick (rnd : Nat → Cell)
  | clock
  | resize

/-- One event dispatched on a state.  A timer whose handle is `null` has been
cleared and does not fire: the event leaves the state alone. -/
def step (s : State) : Event → Option State
  | Event.key k => some (handleKeyDown s k)
  | Event.tick rnd => if s.intervalId then render s rnd else some s
  | Event.clock => if s.timerIntervalId then clockTick s else some s
  | Event.resize => some (onResize s)

/-- A sequence of events dispatched in order. -/
def run (s : State) : List Event → Option State
  | [] => some s
  | ev :: evs => (step s ev).bind fun s1 => run s1 evs

/-- The states a session passes through: `startGame` on any earlier state and
any board size, followed by any sequence of events.  Since the earlier state is
arbitrary this covers a start after a finished session and `restart`. -/
def Reachable (s : State) : Prop :=
  ∃ (s0 : State) (w h : Int) (rnd : Nat → Cell) (evs : List Event),
    (startGame s0 w h rnd).bind (fun s1 => run s1 evs) = some s

/-- The exact opposite of a direction. -/
def opposite : Direction → Direction
  | Direction.left => Direction.right
  | Direction.right => Direction.left
  | Direction.up => Direction.down
  | Direction.down => Direction.up

/-- Membership of a cell in `[0,rows) x [0,cols)`. -/
def inGrid (rows cols : Int) (c : Cell) : Prop :=
  0 ≤ c.x ∧ c.x < rows ∧ 0 ≤ c.y ∧ c.y < cols

instance (rows cols : Int) (c : Cell) : Decidable (inGrid rows cols c) := by
  unfold inGrid; infer_instance

/-- The first segment moved one cell in `nextDirection`: the cell `render`
computes as `head` on lines 184-188.  `none` for the empty snake. -/
def nextHead (s : State) : Option Cell :=
  s.snake.head?.map (moveHead s.nextDirection)

/-- Whether a tick on `s` takes the food branch of `render`: the moved head is
inside the grid, on no snake cell, and on the food cell. -/
def eatsFood (s : State) : Bool :=
  match nextHead s with
  | none => false
  | some c => decide (inGrid s.rows s.cols c) && !onSnake s.snake c && decide (c = s.food)

/-- Whether the event is a tick that fires on `s` and takes the food branch. -/
def eatingTick (s : State) : Event → Bool
  | Event.tick _ => s.intervalId && eatsFood s
  | _ => false

/-- The number of events along `evs`, dispatched in order from `s`, that are
ticks taking the food branch. -/
def foodTicks (s : State) : List Event → Nat
  | [] => 0
  | ev :: evs =>
    (if eatingTick s ev then 1 else 0) +
    (match step s ev with
      | some s1 => foodTicks s1 evs
      | none => 0)

/-- The states on which every callback returns: the snake has a first segment
and `time` is a string the clock callback itself can have written. -/
def WellFormed (s : State) : Prop :=
  s.snake ≠ [] ∧ ∃ m sec, m ≤ 2 ^ 53 ∧ sec < 60 ∧ s.time = formatTime m sec

/-- The direction the spec assigns to a key: ArrowLeft/a/A is left,
ArrowRight/d/D is right, ArrowUp/w/W is up, ArrowDown/s/S is down, and any other
key has none. -/
def keyDirection (k : String) : Option Direction :=
  if k = "ArrowLeft" ∨ k = "a" ∨ k = "A" then some Direction.left
  else if k = "ArrowRight" ∨ k = "d" ∨ k = "D" then some Direction.right
  else if k = "ArrowUp" ∨ k = "w" ∨ k = "W" then some Direction.up
  else if k = "ArrowDown" ∨ k = "s" ∨ k = "S" then some Direction.down
  else none

/-- A 6-column, 8-row board in mid-session: snake `[(2,3),(1,3)]` heading
down, food at `(5,1)`. -/
def board6x8 : State :=
  { cellSize := 50, cols := 6, rows := 8, intervalId := true, timerIntervalId := true,
    highScore := JsNum.int 80, stored := Stored.text "80", score := 30, time := "00:07",
    snake := [{ x := 2, y := 3 }, { x := 1, y := 3 }],
    direction := Direction.down, nextDirection := Direction.down,
    food := { x := 5, y := 1 } }

/-- The same board with the head on the bottom row: snake `[(7,3),(6,3)]`. -/
def boardAtWall : State :=
  { board6x8 with snake := [{ x := 7, y := 3 }, { x := 6, y := 3 }] }

/-- The same board with a snake of four cells curled into a square, the head
`(1,1)` right above the tail `(2,1)`, about to turn down. -/
def boardCurled : State :=
  { board6x8 with
    snake := [{ x := 1, y := 1 }, { x := 1, y := 2 }, { x := 2, y := 2 }, { x := 2, y := 1 }]
    direction := Direction.left
    nextDirection := Direction.down }

/-- The same board with the food right below the head, at `(3,3)`. -/
def boardFoodAhead : State :=
  { board6x8 with food := { x := 3, y := 3 } }

/-- A sample stream that draws `(3,3)`, then `(2,3)`, then `(0,0)` for ever. -/
def rndOnSnake : Nat → Cell := fun i =>
  if i = 0 then { x := 3, y := 3 } else if i = 1 then { x := 2, y := 3 } else { x := 0, y := 0 }

/-- The first state of a session started on a 300 by 400 board, with `(3,3)` as
the first random sample: a 6-column, 8-row grid of 50px cells. -/
def boardStarted : State :=
  { cellSize := 50, cols := 6, rows := 8, intervalId := true, timerIntervalId := true,
    highScore := JsNum.int 80, stored := Stored.text "80", score := 0, time := "00:00",
    snake := [{ x := 2, y := 3 }, { x := 1, y := 3 }],
    direction := Direction.down, nextDirection := Direction.down,
    food := { x := 3, y := 3 } }

/-- A sample stream that always draws the cell `(0,0)`. -/
def rndZero : Nat → Cell := fun _ => { x := 0, y := 0 }

/-- Line 51 of `computeGridSize` on the usable width: the column count aimed
at. -/
def approxColsRaw (usableWidth : Int) : Int :=
  max 6 (usableWidth / DEFAULT_CELL)

/-- Lines 51-52 of `computeGridSize`: the column count after the
`approxCols === 0` branch. -/
def approxColsOf (usableWidth : Int) : Int :=
  if approxColsRaw usableWidth = 0 then 6 else approxColsRaw usableWidth

/-- Line 55 of `computeGridSize`: the cell size before clamping. -/
def candidateCell (usableWidth : Int) : Int :=
  usableWidth / approxColsOf usableWidth

/-- The clock callback fired `n` times in a row. -/
def clockTicks : Nat → State → Option State
  | 0, s => some s
  | n + 1, s => (clockTick s).bind (clockTicks n)

/-- The characters skipped around a numeric string (`StrWhiteSpaceChar` of
ECMAScript: white space and line terminators), by code point: TAB, LF, VT, FF,
CR, space, U+00A0, U+1680, U+2000 to U+200A, U+2028, U+2029, U+202F, U+205F,
U+3000 and U+FEFF. -/
def isJsWhiteSpace (c : Char) : Bool :=
  c.toNat == 9 || c.toNat == 10 || c.toNat == 11 || c.toNat == 12 || c.toNat == 13 ||
  c.toNat == 32 || c.toNat == 160 || c.toNat == 5760 ||
  (decide (8192 ≤ c.toNat) && decide (c.toNat ≤ 8202)) ||
  c.toNat == 8232 || c.toNat == 8233 || c.toNat == 8239 || c.toNat == 8287 ||
  c.toNat == 12288 || c.toNat == 65279

/-- The string with the white space at both ends removed. -/
def trimJs (cs : List Char) : List Char :=
  ((cs.dropWhile isJsWhiteSpace).reverse.dropWhile isJsWhiteSpace).reverse

/-- The value of a character as a digit: `0`-`9`, `a`-`f`, `A`-`F`. -/
def radixDigit? (c : Char) : Option Nat :=
  if 48 ≤ c.toNat ∧ c.toNat ≤ 57 then some (c.toNat - 48)
  else if 97 ≤ c.toNat ∧ c.toNat ≤ 102 then some (c.toNat - 87)
  else if 65 ≤ c.toNat ∧ c.toNat ≤ 70 then some (c.toNat - 55)
  else none

/-- The value of a non-empty run of digits of the given radix; `none` when the
run is empty or holds a character that is no digit of the radix. -/
def radixValue? (radix : Nat) (cs : List Char) : Option Nat :=
  if cs.isEmpty then none
  else
    cs.foldl
      (fun acc c =>
        match acc, radixDigit? c with
        | some a, some d => if d < radix then some (radix * a + d) else none
        | _, _ => none)
      (some 0)

/-- An optional sign split off the front: whether it is `-`, and the rest. -/
def splitSign (cs : List Char) : Bool × List Char :=
  match cs with
  | '-' :: rest => (true, rest)
  | '+' :: rest => (false, rest)
  | _ => (false, cs)

/-- The parts of an unsigned decimal literal (`StrUnsignedDecimalLiteral` other
than `Infinity`): the digits before the point, the digits after it and the
exponent.  There must be a digit before or after the point, and an `e` or `E`
must be followed by an optionally signed non-empty run of digits; `none` when
the string is not of this form. -/
def splitDecimal? (body : List Char) : Option (List Char × List Char × Int) :=
  let intPart := body.takeWhile Char.isDigit
  let afterInt := body.dropWhile Char.isDigit
  let fracPart :=
    match afterInt with
    | '.' :: u => u.takeWhile Char.isDigit
    | _ => []
  let afterFrac :=
    match afterInt with
    | '.' :: u => u.dropWhile Char.isDigit
    | _ => afterInt
  if intPart.isEmpty && fracPart.isEmpty then none
  else
    match afterFrac with
    | [] => some (intPart, fracPart, 0)
    | e :: u =>
      if e = 'e' ∨ e = 'E' then
        if !(splitSign u).2.isEmpty && (splitSign u).2.all Char.isDigit then
          some (intPart, fracPart,
            if (splitSign u).1 then -(digitsValue (splitSign u).2 : Int)
            else (digitsValue (splitSign u).2 : Int))
        else none
      else none

/-- The number for the integer `v` with the given sign: the nearest double
below `2^54`, an infinity from `2^1024` on, not modelled in between. -/
def intNumber? (neg : Bool) (v : Nat) : Option JsNum :=
  match toDouble? v with
  | some d => some (JsNum.int (if neg then -(d : Int) else (d : Int)))
  | none =>
    if v ≥ 2 ^ 1024 then some (if neg then JsNum.negInf else JsNum.posInf) else none

/-- The number for the decimal literal with the given sign, digits and exponent,
whose exact value is `mant * 10 ^ scale`.  A zero mantissa gives 0; a scale above
400 gives an infinity; an integer value goes through `intNumber?`; a non-integer
value with a mantissa below `10^15` and a scale of at least -300 has at most 15
significant digits and lies in the normal range, where no two such decimals
round to the same double, so its double lies strictly between the integers
around it.  Other literals are not modelled. -/
def decimalValue (neg : Bool) (intPart fracPart : List Char) (e : Int) : Option JsNum :=
  let mant := digitsValue (intPart ++ fracPart)
  let scale : Int := e - (fracPart.length : Int)
  if mant = 0 then some (JsNum.int 0)
  else if scale ≥ 0 then
    if scale > 400 then some (if neg then JsNum.negInf else JsNum.posInf)
    else intNumber? neg (mant * 10 ^ scale.toNat)
  else if -scale > 300 then none
  else if mant % 10 ^ (-scale).toNat = 0 then intNumber? neg (mant / 10 ^ (-scale).toNat)
  else if mant < 10 ^ 15 then
    some (JsNum.frac
      (if neg then -((mant / 10 ^ (-scale).toNat : Nat) : Int) - 1
       else ((mant / 10 ^ (-scale).toNat : Nat) : Int)))
  else none

/-- The number for `0x`, `0o` or `0b` followed by `ds`: `NaN` unless `ds` is a
non-empty run of digits of the radix. -/
def radixNumber (radix : Nat) (ds : List Char) : Option JsNum :=
  match radixValue? radix ds with
  | some v => intNumber? false v
  | none => some JsNum.nan

/-- The number for an optionally signed `Infinity` or decimal literal; `NaN` when
the string is neither. -/
def signedDecimal (t : List Char) : Option JsNum :=
  if (splitSign t).2 = "Infinity".toList then
    some (if (splitSign t).1 then JsNum.negInf else JsNum.posInf)
  else
    match splitDecimal? (splitSign t).2 with
    | some (intPart, fracPart, e) => decimalValue (splitSign t).1 intPart fracPart e
    | none => some JsNum.nan

/-- The conversion `Number(str)` of line 24 (`StringToNumber` of ECMAScript): the
string is trimmed; nothing left gives 0; `0x`, `0o`, `0b` (either case) start a
hexadecimal, octal or binary integer; anything else is read as an optionally
signed `Infinity` or decimal literal; a string of none of these forms gives
`NaN`.  `none` is a number outside what `intNumber?` and `decimalValue` model. -/
def numberOfString (cs : List Char) : Option JsNum :=
  match trimJs cs with
  | [] => some (JsNum.int 0)
  | [c0] => signedDecimal [c0]
  | c0 :: c1 :: ds =>
    if c0 = '0' ∧ (c1 = 'x' ∨ c1 = 'X') then radixNumber 16 ds
    else if c0 = '0' ∧ (c1 = 'o' ∨ c1 = 'O') then radixNumber 8 ds
    else if c0 = '0' ∧ (c1 = 'b' ∨ c1 = 'B') then radixNumber 2 ds
    else signedDecimal (c0 :: c1 :: ds)

/-- Whether a trimmed, non-empty string is a numeric literal
(`StrNumericLiteral` of ECMAScript): `0x`, `0o` or `0b` followed by a non-empty
run of digits of that radix, or an optionally signed `Infinity` or decimal
literal. -/
def isStrNumericLiteral (t : List Char) : Bool :=
  (match t with
    | c0 :: c1 :: ds =>
      decide (c0 = '0') &&
        ((decide (c1 = 'x' ∨ c1 = 'X') && (radixValue? 16 ds).isSome) ||
         (decide (c1 = 'o' ∨ c1 = 'O') && (radixValue? 8 ds).isSome) ||
         (decide (c1 = 'b' ∨ c1 = 'B') && (radixValue? 2 ds).isSome))
    | _ => false) ||
  decide ((splitSign t).2 = "Infinity".toList) ||
  (splitDecimal? (splitSign t).2).isSome

/-- The initial value of `highScore` (line 24),
`Number(localStorage.getItem("highScore") || 0)`, from the stored item: an
absent item (`null`) and the empty string are falsy and give `Number(0)`. -/
def loadHighScore (item : Option String) : Option JsNum :=
  match item with
  | none => some (JsNum.int 0)
  | some str => if str.toList = [] then some (JsNum.int 0) else numberOfString str.toList

/-- Two cells are orthogonally adjacent: equal in one coordinate and exactly 1
apart in the other. -/
def Adjacent (a b : Cell) : Prop :=
  (a.x = b.x ∧ (a.y = b.y + 1 ∨ b.y = a.y + 1)) ∨
  (a.y = b.y ∧ (a.x = b.x + 1 ∨ b.x = a.x + 1))

/-- A sample stream that always draws the snake cell `(2,3)`. -/
def rndStuck : Nat → Cell := fun _ => { x := 2, y := 3 }

/-- A sample stream that draws the snake cell `(2,3)` 2000 times and `(0,0)`
from then on. -/
def rndLate : Nat → Cell := fun i =>
  if i < 2000 then { x := 2, y := 3 } else { x := 0, y := 0 }

/-- The 6-column, 8-row board with the clock at `"00:59"`. -/
def boardAt59 : State :=
  { board6x8 with time := "00:59" }

/-- The 6-column, 8-row board with score 120 and a stored high score of 80. -/
def boardScore120 : State :=
  { board6x8 with score := 120 }

/-- The 6-column, 8-row board with score `10^21` and a stored high score of 80. -/
def boardScoreHuge : State :=
  { board6x8 with score := 10 ^ 21 }

/-! ## Helper lemmas -/

theorem onSnake_iff (snake : List Cell) (c : Cell) : onSnake snake c = true ↔ c ∈ snake := by
  unfold onSnake
  rw [List.any_eq_true]
  constructor
  · rintro ⟨seg, hmem, heq⟩
    simp only [Bool.and_eq_true, beq_iff_eq] at heq
    have : seg = c := by
      cases seg; cases c; simp_all
    exact this ▸ hmem
  · intro hmem
    exact ⟨c, hmem, by simp⟩

theorem onSnake_eq_false_iff (snake : List Cell) (c : Cell) :
    onSnake snake c = false ↔ c ∉ snake := by
  rw [← onSnake_iff, Bool.not_eq_true]

theorem wallTest_iff (rows cols : Int) (c : Cell) :
    (decide (c.x < 0) || decide (c.x ≥ rows) || decide (c.y < 0) || decide (c.y ≥ cols)) = true
      ↔ ¬ inGrid rows cols c := by
  unfold inGrid
  simp only [Bool.or_eq_true, decide_eq_true_eq]
  omega

theorem foodTest_iff (c food : Cell) : (c.x == food.x && c.y == food.y) = true ↔ c = food := by
  cases c; cases food; simp

/-- The loop of `placeRandomFood` exits within the fuel it is given: from a
counter of at most 2000, fuel `2001 - tries` is enough. -/
theorem placeRandomFoodLoop_isSome (snake : List Cell) (rnd : Nat → Cell) :
    ∀ (fuel tries : Nat), tries ≤ 2000 → 2001 ≤ fuel + tries →
      ∃ r, placeRandomFoodLoop snake rnd fuel tries = some r := by
  intro fuel
  induction fuel with
  | zero => intro tries h1 h2; omega
  | succ n ih =>
    intro tries h1 h2
    unfold placeRandomFoodLoop
    by_cases hgt : tries + 1 > 2000
    · exact ⟨(rnd tries, tries + 1), by simp [hgt]⟩
    · by_cases hon : onSnake snake (rnd tries) = true
      · obtain ⟨r, hr⟩ := ih (tries + 1) (by omega) (by omega)
        exact ⟨r, by simp [hgt, hon, hr]⟩
      · exact ⟨(rnd tries, tries + 1), by simp [hgt, hon]⟩

theorem placeRandomFood_eq (s : State) (rnd : Nat → Cell) :
    ∃ r, placeRandomFoodLoop s.snake rnd 2001 0 = some r ∧
      placeRandomFood s rnd = some { s with food := r.1 } := by
  obtain ⟨r, hr⟩ := placeRandomFoodLoop_isSome s.snake rnd 2001 0 (by omega) (by omega)
  exact ⟨r, hr, by simp [placeRandomFood, hr]⟩

/-- The three outcomes of a tick on a state with a non-empty snake, by the
position of the moved head `c`. -/
theorem render_cases (s : State) (rnd : Nat → Cell) (seg0 : Cell) (rest : List Cell)
    (hs : s.snake = seg0 :: rest) :
    render s rnd =
      if ¬ inGrid s.rows s.cols (moveHead s.nextDirection seg0) then
        some (endGame { s with direction := s.nextDirection })
      else if moveHead s.nextDirection seg0 ∈ s.snake then
        some (endGame { s with direction := s.nextDirection })
      else if moveHead s.nextDirection seg0 = s.food then
        placeRandomFood { s with direction := s.nextDirection, score := s.score + 10,
                                 snake := moveHead s.nextDirection seg0 :: s.snake } rnd
      else
        some { s with direction := s.nextDirection,
                      snake := moveHead s.nextDirection seg0 :: s.snake.dropLast } := by
  have eta : ({ x := seg0.x, y := seg0.y } : Cell) = seg0 := rfl
  unfold render
  simp only [hs, eta]
  generalize moveHead s.nextDirection seg0 = c
  have hw := wallTest_iff s.rows s.cols c
  by_cases hin : inGrid s.rows s.cols c
  · have hw2 : (decide (c.x < 0) || decide (c.x ≥ s.rows) || decide (c.y < 0) ||
        decide (c.y ≥ s.cols)) = false := by
      rw [← Bool.not_eq_true, hw]; exact not_not.mpr hin
    rw [hw2, if_neg Bool.false_ne_true, if_neg (not_not.mpr hin)]
    by_cases hmem : c ∈ seg0 :: rest
    · rw [(onSnake_iff (seg0 :: rest) c).mpr hmem, if_pos rfl, if_pos hmem]
    · rw [(onSnake_eq_false_iff (seg0 :: rest) c).mpr hmem, if_neg Bool.false_ne_true,
        if_neg hmem]
      by_cases hf : c = s.food
      · rw [if_pos hf]
        simp only [(foodTest_iff c s.food).mpr hf, if_true]
      · rw [if_neg hf]
        have hb : (c.x == s.food.x && c.y == s.food.y) = false := by
          rw [← Bool.not_eq_true, foodTest_iff]; exact hf
        simp only [hb, Bool.false_eq_true, if_false]
  · rw [hw.mpr hin, if_pos rfl, if_pos hin]

theorem endGame_fields (s : State) :
    (endGame s).intervalId = false ∧ (endGame s).timerIntervalId = false ∧
    (endGame s).snake = s.snake ∧ (endGame s).food = s.food ∧ (endGame s).score = s.score ∧
    (endGame s).time = s.time ∧ (endGame s).direction = s.direction ∧
    (endGame s).nextDirection = s.nextDirection ∧ (endGame s).rows = s.rows ∧
    (endGame s).cols = s.cols := by
  unfold endGame
  by_cases h : scoreGt s.score s.highScore = true
  · simp [h]
  · simp [h]

/-! ## The tick -/

/-- C1. A tick whose moved head is inside the grid, on no snake cell and not on
the food returns the state with the moved head put in front of the snake and
the last snake cell removed; food and score are unchanged (only `direction`
and `snake` change). -/
theorem render_normal_move (s : State) (rnd : Nat → Cell) (seg0 : Cell) (rest : List Cell)
    (hs : s.snake = seg0 :: rest)
    (hin : inGrid s.rows s.cols (moveHead s.nextDirection seg0))
    (hself : moveHead s.nextDirection seg0 ∉ s.snake)
    (hfood : moveHead s.nextDirection seg0 ≠ s.food) :
    ∃ s1, render s rnd = some s1 ∧
      s1.snake = moveHead s.nextDirection seg0 :: s.snake.dropLast ∧
      s1.food = s.food ∧ s1.score = s.score ∧
      s1 = { s with direction := s.nextDirection,
                    snake := moveHead s.nextDirection seg0 :: s.snake.dropLast } := by
  refine ⟨{ s with direction := s.nextDirection,
                   snake := moveHead s.nextDirection seg0 :: s.snake.dropLast },
    ?_, rfl, rfl, rfl, rfl⟩
  rw [render_cases s rnd seg0 rest hs, if_neg (not_not.mpr hin), if_neg hself, if_neg hfood]

/-- C1, on the 6-column, 8-row board: snake `[(2,3),(1,3)]` heading down becomes
`[(3,3),(2,3)]`. -/
theorem render_normal_move_witness :
    ∃ s1, render board6x8 rndZero = some s1 ∧
      s1.snake = [{ x := 3, y := 3 }, { x := 2, y := 3 }] ∧
      s1.food = board6x8.food ∧ s1.score = board6x8.score ∧
      s1 = { board6x8 with direction := Direction.down,
                           snake := [{ x := 3, y := 3 }, { x := 2, y := 3 }] } :=
  render_normal_move board6x8 rndZero { x := 2, y := 3 } [{ x := 1, y := 3 }] rfl
    (by decide) (by decide) (by decide)

/-- C2. A tick whose moved head is outside the grid ends the session: both timer
handles are cleared, and snake, food, score and time are unchanged. -/
theorem render_wall_collision (s : State) (rnd : Nat → Cell) (seg0 : Cell) (rest : List Cell)
    (hs : s.snake = seg0 :: rest)
    (hout : ¬ inGrid s.rows s.cols (moveHead s.nextDirection seg0)) :
    ∃ s1, render s rnd = some s1 ∧
      s1.intervalId = false ∧ s1.timerIntervalId = false ∧
      s1.snake = s.snake ∧ s1.food = s.food ∧ s1.score = s.score ∧ s1.time = s.time := by
  obtain ⟨h1, h2, h3, h4, h5, h6, -⟩ := endGame_fields { s with direction := s.nextDirection }
  refine ⟨_, ?_, h1, h2, h3, h4, h5, h6⟩
  rw [render_cases s rnd seg0 rest hs, if_pos hout]

/-- C2, with the head at `(7,3)` moving down on the 8-row board. -/
theorem render_wall_collision_witness :
    ∃ s1, render boardAtWall rndZero = some s1 ∧
      s1.intervalId = false ∧ s1.timerIntervalId = false ∧
      s1.snake = boardAtWall.snake ∧ s1.food = boardAtWall.food ∧
      s1.score = boardAtWall.score ∧ s1.time = boardAtWall.time :=
  render_wall_collision boardAtWall rndZero { x := 7, y := 3 } [{ x := 6, y := 3 }] rfl
    (by decide)

/-- C3. A tick whose moved head is inside the grid and on any cell of the snake as
it stands before the move (the last cell included) ends the session: both timer
handles are cleared, and snake, food and score are unchanged. -/
theorem render_self_collision (s : State) (rnd : Nat → Cell) (seg0 : Cell) (rest : List Cell)
    (hs : s.snake = seg0 :: rest)
    (hin : inGrid s.rows s.cols (moveHead s.nextDirection seg0))
    (hmem : moveHead s.nextDirection seg0 ∈ s.snake) :
    ∃ s1, render s rnd = some s1 ∧
      s1.intervalId = false ∧ s1.timerIntervalId = false ∧
      s1.snake = s.snake ∧ s1.food = s.food ∧ s1.score = s.score := by
  obtain ⟨h1, h2, h3, h4, h5, -⟩ := endGame_fields { s with direction := s.nextDirection }
  refine ⟨_, ?_, h1, h2, h3, h4, h5⟩
  rw [render_cases s rnd seg0 rest hs, if_neg (not_not.mpr hin), if_pos hmem]

/-- C3, at the tail cell: the curled snake's head at `(1,1)` turns down onto
its own last cell `(2,1)`, and the session ends with the snake where it was. -/
theorem render_self_collision_witness :
    boardCurled.snake.getLast? = some (moveHead boardCurled.nextDirection { x := 1, y := 1 }) ∧
    ∃ s1, render boardCurled rndZero = some s1 ∧
      s1.intervalId = false ∧ s1.timerIntervalId = false ∧
      s1.snake = boardCurled.snake ∧ s1.food = boardCurled.food ∧
      s1.score = boardCurled.score :=
  ⟨by decide,
   render_self_collision boardCurled rndZero { x := 1, y := 1 }
    [{ x := 1, y := 2 }, { x := 2, y := 2 }, { x := 2, y := 1 }] rfl (by decide) (by decide)⟩

/-- C4. A tick whose moved head is inside the grid, on no snake cell and on the
food returns the state with the moved head put in front of the whole old snake,
and the new food is the cell the loop of `placeRandomFood` yields when run
against that grown snake (moved head included). -/
theorem render_eat_food (s : State) (rnd : Nat → Cell) (seg0 : Cell) (rest : List Cell)
    (hs : s.snake = seg0 :: rest)
    (hin : inGrid s.rows s.cols (moveHead s.nextDirection seg0))
    (hself : moveHead s.nextDirection seg0 ∉ s.snake)
    (hfood : moveHead s.nextDirection seg0 = s.food) :
    ∃ s1 r, render s rnd = some s1 ∧
      s1.snake = moveHead s.nextDirection seg0 :: s.snake ∧
      placeRandomFoodLoop (moveHead s.nextDirection seg0 :: s.snake) rnd 2001 0 = some r ∧
      s1.food = r.1 ∧
      render s rnd = placeRandomFood
        { s with direction := s.nextDirection, score := s.score + 10,
                 snake := moveHead s.nextDirection seg0 :: s.snake } rnd := by
  have hr := render_cases s rnd seg0 rest hs
  rw [if_neg (not_not.mpr hin), if_neg hself, if_pos hfood] at hr
  obtain ⟨r, hloop, hplace⟩ := placeRandomFood_eq
    { s with direction := s.nextDirection, score := s.score + 10,
             snake := moveHead s.nextDirection seg0 :: s.snake } rnd
  exact ⟨_, r, hr.trans hplace, rfl, hloop, rfl, hr⟩

/-- C4, on the 6-column, 8-row board with the food at `(3,3)` below the head:
the snake grows to `[(3,3),(2,3),(1,3)]`; the samples `(3,3)` (the moved head)
and `(2,3)` are rejected and the third sample `(0,0)` becomes the food. -/
theorem render_eat_food_witness :
    ∃ s1, render boardFoodAhead rndOnSnake = some s1 ∧
      s1.snake = [{ x := 3, y := 3 }, { x := 2, y := 3 }, { x := 1, y := 3 }] ∧
      s1.food = { x := 0, y := 0 } := by
  obtain ⟨s1, r, h1, h2, h3, h4, -⟩ :=
    render_eat_food boardFoodAhead rndOnSnake { x := 2, y := 3 } [{ x := 1, y := 3 }] rfl
      (by decide) (by decide) (by decide)
  have h5 : placeRandomFoodLoop
      (moveHead boardFoodAhead.nextDirection { x := 2, y := 3 } :: boardFoodAhead.snake)
      rndOnSnake 2001 0 = some ({ x := 0, y := 0 }, 3) := by decide
  rw [h5] at h3
  exact ⟨s1, h1, h2, by rw [h4, ← Option.some.inj h3]⟩

/-- C5. A tick leaves the snake's length unchanged on a normal move, raises it by
exactly one when the moved head is on the food, and leaves it unchanged when it
ends the session (moved head outside the grid or on the snake); in every case
the length does not decrease. -/
theorem render_length (s : State) (rnd : Nat → Cell) (seg0 : Cell) (rest : List Cell)
    (hs : s.snake = seg0 :: rest) :
    ∃ s1, render s rnd = some s1 ∧
      (inGrid s.rows s.cols (moveHead s.nextDirection seg0) →
        moveHead s.nextDirection seg0 ∉ s.snake →
        moveHead s.nextDirection seg0 ≠ s.food → s1.snake.length = s.snake.length) ∧
      (inGrid s.rows s.cols (moveHead s.nextDirection seg0) →
        moveHead s.nextDirection seg0 ∉ s.snake →
        moveHead s.nextDirection seg0 = s.food → s1.snake.length = s.snake.length + 1) ∧
      (¬ inGrid s.rows s.cols (moveHead s.nextDirection seg0) ∨
        moveHead s.nextDirection seg0 ∈ s.snake →
        s1.intervalId = false ∧ s1.snake.length = s.snake.length) ∧
      s.snake.length ≤ s1.snake.length := by
  have hr := render_cases s rnd seg0 rest hs
  obtain ⟨e1, -, e3, -⟩ := endGame_fields { s with direction := s.nextDirection }
  by_cases hin : inGrid s.rows s.cols (moveHead s.nextDirection seg0)
  · by_cases hmem : moveHead s.nextDirection seg0 ∈ s.snake
    · rw [if_neg (not_not.mpr hin), if_pos hmem] at hr
      exact ⟨_, hr, fun _ h => absurd hmem h, fun _ h => absurd hmem h,
        fun _ => ⟨e1, by rw [e3]⟩, by rw [e3]⟩
    · by_cases hf : moveHead s.nextDirection seg0 = s.food
      · rw [if_neg (not_not.mpr hin), if_neg hmem, if_pos hf] at hr
        obtain ⟨r, -, hplace⟩ := placeRandomFood_eq
          { s with direction := s.nextDirection, score := s.score + 10,
                   snake := moveHead s.nextDirection seg0 :: s.snake } rnd
        refine ⟨_, hr.trans hplace, fun _ _ h => absurd hf h, fun _ _ _ => rfl, ?_, by simp⟩
        rintro (h | h)
        · exact absurd hin h
        · exact absurd h hmem
      · rw [if_neg (not_not.mpr hin), if_neg hmem, if_neg hf] at hr
        have hlen : (moveHead s.nextDirection seg0 :: s.snake.dropLast).length
            = s.snake.length := by
          rw [hs]; simp
        refine ⟨_, hr, fun _ _ _ => hlen, fun _ _ h => absurd h hf, ?_, by rw [hlen]⟩
        rintro (h | h)
        · exact absurd hin h
        · exact absurd h hmem
  · rw [if_pos hin] at hr
    exact ⟨_, hr, fun h => absurd h hin, fun h => absurd h hin,
      fun _ => ⟨e1, by rw [e3]⟩, by rw [e3]⟩

/-- C5, on the 6-column, 8-row board with the food below the head: the tick takes
the length from 2 to 3. -/
theorem render_length_witness :
    ∃ s1, render boardFoodAhead rndOnSnake = some s1 ∧ s1.snake.length = 2 + 1 := by
  obtain ⟨s1, h1, -, h2, -⟩ :=
    render_length boardFoodAhead rndOnSnake { x := 2, y := 3 } [{ x := 1, y := 3 }] rfl
  exact ⟨s1, h1, h2 (by decide) (by decide) (by decide)⟩

/-! ## The clock string -/

theorem digitChar_digit (d : Nat) (h : d < 10) :
    (Nat.digitChar d).isDigit = true ∧ (Nat.digitChar d).toNat - 48 = d ∧
      Nat.digitChar d ≠ ':' := by
  interval_cases d <;> decide

theorem toDigitsCore_value : ∀ (fuel n : Nat) (ds : List Char), n < fuel →
    List.foldl (fun a c => 10 * a + (c.toNat - 48)) 0 (Nat.toDigitsCore 10 fuel n ds)
      = List.foldl (fun a c => 10 * a + (c.toNat - 48)) n ds := by
  intro fuel
  induction fuel with
  | zero => intro n ds h; omega
  | succ k ih =>
    intro n ds h
    have hd := (digitChar_digit (n % 10) (Nat.mod_lt _ (by decide))).2.1
    unfold Nat.toDigitsCore
    by_cases h0 : n / 10 = 0
    · simp only [h0, if_true, List.foldl_cons, hd]
      congr 1; omega
    · simp only [h0, if_false]
      rw [ih (n / 10) _ (by omega), List.foldl_cons, hd]
      congr 1; omega

theorem toDigitsCore_chars : ∀ (fuel n : Nat) (ds : List Char),
    (∀ c ∈ ds, c.isDigit = true ∧ c ≠ ':') →
    ∀ c ∈ Nat.toDigitsCore 10 fuel n ds, c.isDigit = true ∧ c ≠ ':' := by
  intro fuel
  induction fuel with
  | zero => intro n ds h; simpa [Nat.toDigitsCore] using h
  | succ k ih =>
    intro n ds h
    have hd := digitChar_digit (n % 10) (Nat.mod_lt _ (by decide))
    have hcons : ∀ c ∈ Nat.digitChar (n % 10) :: ds, c.isDigit = true ∧ c ≠ ':' := by
      intro c hc
      rcases List.mem_cons.mp hc with rfl | hc
      · exact ⟨hd.1, hd.2.2⟩
      · exact h c hc
    unfold Nat.toDigitsCore
    by_cases h0 : n / 10 = 0
    · simpa only [h0, if_true] using hcons
    · simp only [h0, if_false]
      exact ih (n / 10) _ hcons

theorem repr_toList (n : Nat) : (Nat.repr n).toList = Nat.toDigitsCore 10 (n + 1) n [] := rfl

theorem padStart2_value (cs : List Char) : digitsValue (padStart2 cs) = digitsValue cs := by
  unfold digitsValue padStart2
  rw [List.foldl_append]
  congr 1
  generalize 2 - cs.length = k
  induction k with
  | zero => rfl
  | succ j ih => rw [List.replicate_succ, List.foldl_cons]; simpa using ih

theorem padStart2_chars (cs : List Char) (h : ∀ c ∈ cs, c.isDigit = true ∧ c ≠ ':') :
    ∀ c ∈ padStart2 cs, c.isDigit = true ∧ c ≠ ':' := by
  intro c hc
  unfold padStart2 at hc
  rcases List.mem_append.mp hc with hc | hc
  · rw [List.eq_of_mem_replicate hc]; decide
  · exact h c hc

theorem toDouble_of_le (n : Nat) (hn : n ≤ 2 ^ 53) : toDouble? n = some n := by
  unfold toDouble?
  rw [if_pos hn]

/-- At `2^53` adding 1 is lost in the rounding. -/
theorem toDouble_succ (m : Nat) (hm : m ≤ 2 ^ 53) :
    toDouble? (m + 1) = some (if m < 2 ^ 53 then m + 1 else m) := by
  by_cases hlt : m < 2 ^ 53
  · rw [if_pos hlt]
    exact toDouble_of_le (m + 1) hlt
  · have hm2 : m = 2 ^ 53 := by omega
    rw [if_neg hlt, hm2]
    decide

theorem padStart2_repr_chars (n : Nat) :
    ∀ c ∈ padStart2 (Nat.repr n).toList, c.isDigit = true ∧ c ≠ ':' :=
  padStart2_chars (Nat.repr n).toList
    (by rw [repr_toList]; exact toDigitsCore_chars (n + 1) n [] (by simp))

/-- A padded decimal field reads back as the number it was printed from. -/
theorem jsNumber_padStart2_repr (n : Nat) (hn : n ≤ 2 ^ 53) :
    jsNumber? (padStart2 (Nat.repr n).toList) = some n ∧
      ∀ c ∈ padStart2 (Nat.repr n).toList, c ≠ ':' := by
  have hch := padStart2_repr_chars n
  refine ⟨?_, fun c hc => (hch c hc).2⟩
  have hall : (padStart2 (Nat.repr n).toList).all Char.isDigit = true :=
    List.all_eq_true.mpr fun c hc => (hch c hc).1
  unfold jsNumber?
  rw [if_pos hall, padStart2_value, repr_toList]
  unfold digitsValue
  rw [toDigitsCore_value (n + 1) n [] (by omega)]
  exact toDouble_of_le n hn

theorem timeString_eq (m sec : Nat) (hm : m ≤ 2 ^ 53) (hsec : sec ≤ 2 ^ 53) :
    timeString? m sec = some (formatTime m sec) := by
  unfold timeString? numberToString?
  rw [if_pos hm, if_pos hsec]
  rfl

theorem splitColon_noColon (a : List Char) (h : ∀ c ∈ a, c ≠ ':') : splitColon a = [a] := by
  induction a with
  | nil => rfl
  | cons c cs ih =>
    have hc : c ≠ ':' := h c (List.mem_cons_self _ _)
    have := ih fun d hd => h d (List.mem_cons_of_mem _ hd)
    simp [splitColon, hc, this]

theorem splitColon_append (a b : List Char) (h : ∀ c ∈ a, c ≠ ':') :
    splitColon (a ++ ':' :: b) = a :: splitColon b := by
  induction a with
  | nil => simp [splitColon]
  | cons c cs ih =>
    have hc : c ≠ ':' := h c (List.mem_cons_self _ _)
    have := ih fun d hd => h d (List.mem_cons_of_mem _ hd)
    simp [splitColon, hc, this]

/-- The clock callback on a well-formed time string: it always returns, with the
seconds advanced by one and carried into the minutes at 60, where the minutes
advance as long as they are below `2^53`. -/
theorem clockTick_formatTime (s : State) (m sec : Nat) (hm : m ≤ 2 ^ 53) (hsec : sec < 60)
    (ht : s.time = formatTime m sec) :
    clockTick s = some { s with
      time := if sec + 1 ≥ 60 then formatTime (if m < 2 ^ 53 then m + 1 else m) 0
        else formatTime m (sec + 1) } := by
  have h53 : (60 : Nat) ≤ 2 ^ 53 := by decide
  obtain ⟨hm1, hm2⟩ := jsNumber_padStart2_repr m hm
  obtain ⟨hs1, hs2⟩ := jsNumber_padStart2_repr sec (by omega)
  have hsplit : splitColon s.time.toList
      = [padStart2 (Nat.repr m).toList, padStart2 (Nat.repr sec).toList] := by
    rw [ht]
    show splitColon (padStart2 (Nat.repr m).toList ++ ':' :: padStart2 (Nat.repr sec).toList) = _
    rw [splitColon_append _ _ hm2, splitColon_noColon _ hs2]
  unfold clockTick
  rw [hsplit]
  simp only [hm1, hs1, toDouble_of_le (sec + 1) (by omega), toDouble_succ m hm]
  by_cases h : sec + 1 ≥ 60
  · rw [if_pos h, if_pos h]
    have hm' : (if m < 2 ^ 53 then m + 1 else m) ≤ 2 ^ 53 := by split_ifs <;> omega
    rw [timeString_eq _ 0 hm' (by omega)]
    rfl
  · rw [if_neg h, if_neg h, timeString_eq m (sec + 1) hm (by omega)]
    rfl

/-! ## Inversion of the callbacks -/

/-- The clock callback writes nothing but `time`. -/
theorem clockTick_inv (s s1 : State) (h : clockTick s = some s1) :
    ∃ tm, s1 = { s with time := tm } := by
  unfold clockTick at h
  split at h
  · split at h
    · split at h
      · split_ifs at h
        · split at h
          · obtain ⟨tm, -, htm⟩ := Option.map_eq_some'.mp h
            exact ⟨tm, htm.symm⟩
          · exact absurd h (by simp)
        · obtain ⟨tm, -, htm⟩ := Option.map_eq_some'.mp h
          exact ⟨tm, htm.symm⟩
      · exact absurd h (by simp)
    · exact absurd h (by simp)
  · exact absurd h (by simp)

/-- Every tick on a non-empty snake returns. -/
theorem render_some (s : State) (rnd : Nat → Cell) (seg0 : Cell) (rest : List Cell)
    (hs : s.snake = seg0 :: rest) : ∃ s1, render s rnd = some s1 := by
  rw [render_cases s rnd seg0 rest hs]
  by_cases hin : inGrid s.rows s.cols (moveHead s.nextDirection seg0)
  · by_cases hmem : moveHead s.nextDirection seg0 ∈ s.snake
    · exact ⟨_, by rw [if_neg (not_not.mpr hin), if_pos hmem]⟩
    · by_cases hf : moveHead s.nextDirection seg0 = s.food
      · obtain ⟨r, -, hr⟩ := placeRandomFood_eq
          { s with direction := s.nextDirection, score := s.score + 10,
                   snake := moveHead s.nextDirection seg0 :: s.snake } rnd
        exact ⟨_, by rw [if_neg (not_not.mpr hin), if_neg hmem, if_pos hf, hr]⟩
      · exact ⟨_, by rw [if_neg (not_not.mpr hin), if_neg hmem, if_neg hf]⟩
  · exact ⟨_, by rw [if_pos hin]⟩

/-- What a tick that returns has done, by the branch it took. -/
theorem render_inv (s : State) (rnd : Nat → Cell) (s1 : State) (h : render s rnd = some s1) :
    ∃ seg0 rest, s.snake = seg0 :: rest ∧
      (((¬ inGrid s.rows s.cols (moveHead s.nextDirection seg0) ∨
            moveHead s.nextDirection seg0 ∈ s.snake) ∧
          s1 = endGame { s with direction := s.nextDirection }) ∨
       (inGrid s.rows s.cols (moveHead s.nextDirection seg0) ∧
          moveHead s.nextDirection seg0 ∉ s.snake ∧
          moveHead s.nextDirection seg0 = s.food ∧
          ∃ f, s1 = { s with direction := s.nextDirection, score := s.score + 10,
                             snake := moveHead s.nextDirection seg0 :: s.snake, food := f }) ∨
       (inGrid s.rows s.cols (moveHead s.nextDirection seg0) ∧
          moveHead s.nextDirection seg0 ∉ s.snake ∧
          moveHead s.nextDirection seg0 ≠ s.food ∧
          s1 = { s with direction := s.nextDirection,
                        snake := moveHead s.nextDirection seg0 :: s.snake.dropLast })) := by
  cases hs : s.snake with
  | nil => simp [render, hs] at h
  | cons seg0 rest =>
    refine ⟨seg0, rest, rfl, ?_⟩
    rw [render_cases s rnd seg0 rest hs] at h
    rw [← hs]
    by_cases hin : inGrid s.rows s.cols (moveHead s.nextDirection seg0)
    · by_cases hmem : moveHead s.nextDirection seg0 ∈ s.snake
      · rw [if_neg (not_not.mpr hin), if_pos hmem] at h
        exact Or.inl ⟨Or.inr hmem, (Option.some.inj h).symm⟩
      · by_cases hf : moveHead s.nextDirection seg0 = s.food
        · rw [if_neg (not_not.mpr hin), if_neg hmem, if_pos hf] at h
          obtain ⟨r, -, hr⟩ := placeRandomFood_eq
            { s with direction := s.nextDirection, score := s.score + 10,
                     snake := moveHead s.nextDirection seg0 :: s.snake } rnd
          rw [hr] at h
          exact Or.inr (Or.inl ⟨hin, hmem, hf, r.1, (Option.some.inj h).symm⟩)
        · rw [if_neg (not_not.mpr hin), if_neg hmem, if_neg hf] at h
          exact Or.inr (Or.inr ⟨hin, hmem, hf, (Option.some.inj h).symm⟩)
    · rw [if_pos hin] at h
      exact Or.inl ⟨Or.inl hin, (Option.some.inj h).symm⟩

/-- A key press writes at most `nextDirection`, and never the opposite of
`direction`. -/
theorem handleKeyDown_eq (s : State) (k : String) :
    ∃ d, handleKeyDown s k = { s with nextDirection := d } ∧
      (d = s.nextDirection ∨ d ≠ opposite s.direction) := by
  unfold handleKeyDown
  split_ifs with h1 h2 h3 h4
  · exact ⟨Direction.left, rfl, Or.inr (by
      cases hd : s.direction <;> simp_all [opposite])⟩
  · exact ⟨Direction.right, rfl, Or.inr (by
      cases hd : s.direction <;> simp_all [opposite])⟩
  · exact ⟨Direction.up, rfl, Or.inr (by
      cases hd : s.direction <;> simp_all [opposite])⟩
  · exact ⟨Direction.down, rfl, Or.inr (by
      cases hd : s.direction <;> simp_all [opposite])⟩
  · exact ⟨s.nextDirection, rfl, Or.inl rfl⟩

theorem onResize_eq (s : State) : onResize s = s ∨ onResize s = endGame s := by
  unfold onResize
  split_ifs
  · exact Or.inr rfl
  · exact Or.inl rfl

/-- The first state of a session. -/
theorem startGame_eq (s0 : State) (w h : Int) (rnd : Nat → Cell) :
    ∃ f, startGame s0 w h rnd = some
      { computeGridSize s0 w h with
        snake := [{ x := (computeGridSize s0 w h).rows / 3, y := (computeGridSize s0 w h).cols / 2 },
                  { x := (computeGridSize s0 w h).rows / 3 - 1,
                    y := (computeGridSize s0 w h).cols / 2 }]
        direction := Direction.down
        nextDirection := Direction.down
        score := 0
        time := "00:00"
        food := f
        intervalId := true
        timerIntervalId := true } := by
  unfold startGame
  simp only
  obtain ⟨r, -, hr⟩ := placeRandomFood_eq
    { computeGridSize s0 w h with
        snake := [{ x := (computeGridSize s0 w h).rows / 3, y := (computeGridSize s0 w h).cols / 2 },
                  { x := (computeGridSize s0 w h).rows / 3 - 1,
                    y := (computeGridSize s0 w h).cols / 2 }]
        direction := Direction.down
        nextDirection := Direction.down
        score := 0
        time := "00:00" } rnd
  exact ⟨r.1, by rw [hr]; rfl⟩

theorem computeGridSize_bounds (s0 : State) (w h : Int) :
    8 ≤ (computeGridSize s0 w h).rows ∧ 6 ≤ (computeGridSize s0 w h).cols := by
  unfold computeGridSize
  exact ⟨le_max_left _ _, le_max_left _ _⟩

/-! ## Runs of events -/

theorem run_cons_eq_some (s : State) (ev : Event) (evs : List Event) (s2 : State) :
    run s (ev :: evs) = some s2 ↔ ∃ s1, step s ev = some s1 ∧ run s1 evs = some s2 := by
  simp [run, Option.bind_eq_some]

/-- A property that holds after `startGame` and is kept by every event holds in
every reachable state. -/
theorem reachable_induction (P : State → Prop)
    (hstart : ∀ s0 w h rnd s1, startGame s0 w h rnd = some s1 → P s1)
    (hstep : ∀ s ev s1, P s → step s ev = some s1 → P s1) :
    ∀ s, Reachable s → P s := by
  have hrun : ∀ (evs : List Event) (s s2 : State), P s → run s evs = some s2 → P s2 := by
    intro evs
    induction evs with
    | nil =>
      intro s s2 hp h
      simp only [run, Option.some.injEq] at h
      exact h ▸ hp
    | cons ev evs ih =>
      intro s s2 hp h
      obtain ⟨s1, h1, h2⟩ := (run_cons_eq_some s ev evs s2).mp h
      exact ih s1 s2 (hstep s ev s1 hp h1) h2
  rintro s ⟨s0, w, h, rnd, evs, hr⟩
  obtain ⟨s1, h1, h2⟩ := Option.bind_eq_some.mp hr
  exact hrun evs s1 s (hstart s0 w h rnd s1 h1) h2

theorem startGame_wellFormed (s0 : State) (w h : Int) (rnd : Nat → Cell) (s1 : State)
    (hs : startGame s0 w h rnd = some s1) : WellFormed s1 := by
  obtain ⟨f, hf⟩ := startGame_eq s0 w h rnd
  rw [hf] at hs
  rw [← Option.some.inj hs]
  have h00 : "00:00" = formatTime 0 0 := by decide
  exact ⟨by simp, 0, 0, by decide, by decide, h00⟩

theorem step_wellFormed (s : State) (ev : Event) (s1 : State) (hwf : WellFormed s)
    (h : step s ev = some s1) : WellFormed s1 := by
  obtain ⟨hne, m, sec, hm, hsec, ht⟩ := hwf
  cases ev with
  | key k =>
    obtain ⟨d, hd, -⟩ := handleKeyDown_eq s k
    simp only [step, hd, Option.some.injEq] at h
    rw [← h]
    exact ⟨hne, m, sec, hm, hsec, ht⟩
  | tick rnd =>
    simp only [step] at h
    split_ifs at h
    · obtain ⟨seg0, rest, -, hc | ⟨-, -, -, f, hc⟩ | ⟨-, -, -, hc⟩⟩ := render_inv s rnd s1 h
      · obtain ⟨-, -, e3, -, -, e6, -⟩ := endGame_fields { s with direction := s.nextDirection }
        rw [hc.2]
        exact ⟨by rw [e3]; exact hne, m, sec, hm, hsec, by rw [e6]; exact ht⟩
      · rw [hc]; exact ⟨by simp, m, sec, hm, hsec, ht⟩
      · rw [hc]; exact ⟨by simp, m, sec, hm, hsec, ht⟩
    · rw [← Option.some.inj h]
      exact ⟨hne, m, sec, hm, hsec, ht⟩
  | clock =>
    simp only [step] at h
    split_ifs at h
    · rw [clockTick_formatTime s m sec hm hsec ht] at h
      rw [← Option.some.inj h]
      refine ⟨hne, ?_⟩
      by_cases hc : sec + 1 ≥ 60
      · exact ⟨if m < 2 ^ 53 then m + 1 else m, 0, by split_ifs <;> omega, by decide,
          by simp [hc]⟩
      · exact ⟨m, sec + 1, hm, by omega, by simp [hc]⟩
    · rw [← Option.some.inj h]
      exact ⟨hne, m, sec, hm, hsec, ht⟩
  | resize =>
    simp only [step, Option.some.injEq] at h
    rw [← h]
    rcases onResize_eq s with hr | hr
    · rw [hr]; exact ⟨hne, m, sec, hm, hsec, ht⟩
    · obtain ⟨-, -, e3, -, -, e6, -⟩ := endGame_fields s
      rw [hr]
      exact ⟨by rw [e3]; exact hne, m, sec, hm, hsec, by rw [e6]; exact ht⟩

/-- Every event dispatched on a well-formed state returns. -/
theorem step_some (s : State) (ev : Event) (hwf : WellFormed s) : ∃ s1, step s ev = some s1 := by
  obtain ⟨hne, m, sec, hm, hsec, ht⟩ := hwf
  cases ev with
  | key k => exact ⟨_, rfl⟩
  | tick rnd =>
    simp only [step]
    split_ifs
    · obtain ⟨seg0, rest, hs⟩ := List.exists_cons_of_ne_nil hne
      exact render_some s rnd seg0 rest hs
    · exact ⟨_, rfl⟩
  | clock =>
    simp only [step]
    split_ifs
    · exact ⟨_, clockTick_formatTime s m sec hm hsec ht⟩
    · exact ⟨_, rfl⟩
  | resize => exact ⟨_, rfl⟩

/-- Every sequence of events dispatched on a well-formed state returns. -/
theorem run_some (evs : List Event) : ∀ (s : State), WellFormed s → ∃ s2, run s evs = some s2 := by
  induction evs with
  | nil => intro s _; exact ⟨s, rfl⟩
  | cons ev evs ih =>
    intro s hwf
    obtain ⟨s1, h1⟩ := step_some s ev hwf
    obtain ⟨s2, h2⟩ := ih s1 (step_wellFormed s ev s1 hwf h1)
    exact ⟨s2, (run_cons_eq_some s ev evs s2).mpr ⟨s1, h1, h2⟩⟩

theorem run_wellFormed (evs : List Event) :
    ∀ (s s2 : State), WellFormed s → run s evs = some s2 → WellFormed s2 := by
  induction evs with
  | nil =>
    intro s s2 hwf h
    simp only [run, Option.some.injEq] at h
    exact h ▸ hwf
  | cons ev evs ih =>
    intro s s2 hwf h
    obtain ⟨s1, h1, h2⟩ := (run_cons_eq_some s ev evs s2).mp h
    exact ih s1 s2 (step_wellFormed s ev s1 hwf h1) h2

/-- A restart is a `startGame` on another earlier state, so the states after it
are reachable. -/
theorem restart_reachable (s : State) (w h w2 h2 : Int) (rnd : Nat → Cell) (s1 : State)
    (hr : restart s w h w2 h2 rnd = some s1) : Reachable s1 :=
  ⟨computeGridSize { s with intervalId := false, timerIntervalId := false } w h, w2, h2, rnd, [],
    by rw [show startGame _ w2 h2 rnd = some s1 from hr]; rfl⟩

/-- A session never gets stuck: `startGame` returns on every earlier state, board
size and sample stream, and so does every sequence of events after it. -/
theorem session_total (s0 : State) (w h : Int) (rnd : Nat → Cell) (evs : List Event) :
    ∃ s1 s2, startGame s0 w h rnd = some s1 ∧ run s1 evs = some s2 ∧ WellFormed s2 ∧
      Reachable s1 ∧ Reachable s2 := by
  obtain ⟨f, hf⟩ := startGame_eq s0 w h rnd
  have hwf := startGame_wellFormed s0 w h rnd _ hf
  obtain ⟨s2, h2⟩ := run_some evs _ hwf
  refine ⟨_, s2, hf, h2, run_wellFormed evs _ s2 hwf h2, ?_, ?_⟩
  · exact ⟨s0, w, h, rnd, [], by rw [hf]; rfl⟩
  · exact ⟨s0, w, h, rnd, evs, by rw [hf]; exact h2⟩

/-! ## Score -/

theorem eatsFood_cons (s : State) (seg0 : Cell) (rest : List Cell) (hs : s.snake = seg0 :: rest) :
    eatsFood s = true ↔
      inGrid s.rows s.cols (moveHead s.nextDirection seg0) ∧
      moveHead s.nextDirection seg0 ∉ s.snake ∧ moveHead s.nextDirection seg0 = s.food := by
  unfold eatsFood nextHead
  simp only [hs, List.head?_cons, Option.map_some', Bool.and_eq_true, decide_eq_true_eq,
    Bool.not_eq_true']
  rw [onSnake_eq_false_iff]
  exact and_assoc

theorem eatingTick_iff (s : State) (ev : Event) :
    eatingTick s ev = true ↔
      ∃ rnd seg0 rest, ev = Event.tick rnd ∧ s.intervalId = true ∧ s.snake = seg0 :: rest ∧
        inGrid s.rows s.cols (moveHead s.nextDirection seg0) ∧
        moveHead s.nextDirection seg0 ∉ s.snake ∧ moveHead s.nextDirection seg0 = s.food := by
  cases ev with
  | tick rnd =>
    simp only [eatingTick, Bool.and_eq_true]
    constructor
    · rintro ⟨hi, he⟩
      cases hs : s.snake with
      | nil => simp [eatsFood, nextHead, hs] at he
      | cons seg0 rest =>
        have := (eatsFood_cons s seg0 rest hs).mp he
        rw [hs] at this
        exact ⟨rnd, seg0, rest, rfl, hi, rfl, this⟩
    · rintro ⟨r, seg0, rest, -, hi, hs, h⟩
      exact ⟨hi, (eatsFood_cons s seg0 rest hs).mpr h⟩
  | key k => simp [eatingTick]
  | clock => simp [eatingTick]
  | resize => simp [eatingTick]

/-- An event adds 10 to the score when it is a tick taking the food branch and
nothing otherwise. -/
theorem step_score (s : State) (ev : Event) (s1 : State) (h : step s ev = some s1) :
    s1.score = s.score + (if eatingTick s ev then 10 else 0) := by
  cases ev with
  | key k =>
    obtain ⟨d, hd, -⟩ := handleKeyDown_eq s k
    simp only [step, hd, Option.some.injEq] at h
    rw [← h]; simp [eatingTick]
  | tick rnd =>
    simp only [step] at h
    by_cases hi : s.intervalId = true
    · rw [if_pos hi] at h
      obtain ⟨seg0, rest, hs, hc | ⟨h1, h2, h3, f, hc⟩ | ⟨h1, h2, h3, hc⟩⟩ := render_inv s rnd s1 h
      · have he : eatsFood s = false := by
          rw [← Bool.not_eq_true, eatsFood_cons s seg0 rest hs]
          rintro ⟨g1, g2, -⟩
          rcases hc.1 with g | g
          · exact g g1
          · exact g2 g
        obtain ⟨-, -, -, -, e5, -⟩ := endGame_fields { s with direction := s.nextDirection }
        rw [hc.2, e5]; simp [eatingTick, he]
      · have he : eatsFood s = true := (eatsFood_cons s seg0 rest hs).mpr ⟨h1, h2, h3⟩
        rw [hc]; simp [eatingTick, he, hi]
      · have he : eatsFood s = false := by
          rw [← Bool.not_eq_true, eatsFood_cons s seg0 rest hs]
          rintro ⟨-, -, g3⟩
          exact h3 g3
        rw [hc]; simp [eatingTick, he]
    · rw [if_neg hi] at h
      rw [← Option.some.inj h]; simp [eatingTick, hi]
  | clock =>
    simp only [step] at h
    split_ifs at h
    · obtain ⟨tm, htm⟩ := clockTick_inv s s1 h
      rw [htm]; simp [eatingTick]
    · rw [← Option.some.inj h]; simp [eatingTick]
  | resize =>
    simp only [step, Option.some.injEq] at h
    rw [← h]
    rcases onResize_eq s with hr | hr
    · rw [hr]; simp [eatingTick]
    · obtain ⟨-, -, -, -, e5, -⟩ := endGame_fields s
      rw [hr, e5]; simp [eatingTick]

theorem run_score (evs : List Event) : ∀ (s s2 : State), run s evs = some s2 →
    s2.score = s.score + 10 * foodTicks s evs := by
  induction evs with
  | nil =>
    intro s s2 h
    simp only [run, Option.some.injEq] at h
    rw [← h]; simp [foodTicks]
  | cons ev evs ih =>
    intro s s2 h
    obtain ⟨s1, h1, h2⟩ := (run_cons_eq_some s ev evs s2).mp h
    rw [ih s1 s2 h2, step_score s ev s1 h1]
    simp only [foodTicks, h1]
    split_ifs <;> omega

/-- C6. A session starts with score 0; after any sequence of events the score is
10 times the number of ticks that took the food branch; and the next event adds
exactly 10 when it is such a tick (a firing tick whose moved head is inside the
grid, on no snake cell and on the food) and leaves the score alone otherwise, so
the score never decreases. -/
theorem score_ten_per_food (s0 : State) (w h : Int) (rnd : Nat → Cell) (evs : List Event)
    (ev : Event) :
    ∃ s1 s2 s3, startGame s0 w h rnd = some s1 ∧ s1.score = 0 ∧
      run s1 evs = some s2 ∧ s2.score = 10 * foodTicks s1 evs ∧
      step s2 ev = some s3 ∧
      (eatingTick s2 ev = true → s3.score = s2.score + 10) ∧
      (eatingTick s2 ev = false → s3.score = s2.score) ∧
      s2.score ≤ s3.score ∧
      (eatingTick s2 ev = true ↔
        ∃ rnd2 seg0 rest, ev = Event.tick rnd2 ∧ s2.intervalId = true ∧
          s2.snake = seg0 :: rest ∧
          inGrid s2.rows s2.cols (moveHead s2.nextDirection seg0) ∧
          moveHead s2.nextDirection seg0 ∉ s2.snake ∧
          moveHead s2.nextDirection seg0 = s2.food) := by
  obtain ⟨s1, s2, h1, h2, hwf, -, -⟩ := session_total s0 w h rnd evs
  obtain ⟨s3, h3⟩ := step_some s2 ev hwf
  have hscore0 : s1.score = 0 := by
    obtain ⟨f, hf⟩ := startGame_eq s0 w h rnd
    rw [hf] at h1
    rw [← Option.some.inj h1]
  have hrun := run_score evs s1 s2 h2
  have hstep := step_score s2 ev s3 h3
  refine ⟨s1, s2, s3, h1, hscore0, h2, by rw [hrun, hscore0]; omega, h3, ?_, ?_, ?_,
    eatingTick_iff s2 ev⟩
  · intro he; rw [hstep, he]; rfl
  · intro he; rw [hstep, he]; rfl
  · rw [hstep]; omega

/-- C6, on a session started on a 300 by 400 board with the food drawn at `(3,3)`,
right below the head: the first tick eats it, is counted once, and the score
is 10. -/
theorem score_ten_per_food_witness :
    ∃ s1 s2, startGame board6x8 300 400 rndOnSnake = some s1 ∧ s1.score = 0 ∧
      run s1 [Event.tick rndOnSnake] = some s2 ∧
      foodTicks s1 [Event.tick rndOnSnake] = 1 ∧ s2.score = 10 := by
  obtain ⟨s1, s2, -, h1, h2, h3, h4, -⟩ :=
    score_ten_per_food board6x8 300 400 rndOnSnake [Event.tick rndOnSnake] Event.resize
  have hstart : startGame board6x8 300 400 rndOnSnake = some boardStarted := by decide
  have hs1 : s1 = boardStarted := Option.some.inj (h1.symm.trans hstart)
  have hcount : foodTicks boardStarted [Event.tick rndOnSnake] = 1 := by decide
  subst hs1
  exact ⟨boardStarted, s2, h1, h2, h3, hcount, by rw [h4, hcount]⟩

/-! ## Direction -/

theorem ne_opposite_self (d : Direction) : d ≠ opposite d := by
  cases d <;> decide

theorem render_direction (s : State) (rnd : Nat → Cell) (s1 : State)
    (h : render s rnd = some s1) :
    s1.direction = s.nextDirection ∧ s1.nextDirection = s.nextDirection := by
  obtain ⟨seg0, rest, -, hc | ⟨-, -, -, f, hc⟩ | ⟨-, -, -, hc⟩⟩ := render_inv s rnd s1 h
  · obtain ⟨-, -, -, -, -, -, e7, e8, -⟩ := endGame_fields { s with direction := s.nextDirection }
    rw [hc.2]; exact ⟨e7, e8⟩
  · rw [hc]; exact ⟨rfl, rfl⟩
  · rw [hc]; exact ⟨rfl, rfl⟩

/-- Key presses leave `direction` alone and keep `nextDirection` off its
opposite. -/
theorem foldl_handleKeyDown (keys : List String) : ∀ (s : State),
    s.nextDirection ≠ opposite s.direction →
    (keys.foldl handleKeyDown s).direction = s.direction ∧
      (keys.foldl handleKeyDown s).nextDirection ≠ opposite s.direction := by
  induction keys with
  | nil => intro s hs; exact ⟨rfl, hs⟩
  | cons k ks ih =>
    intro s hs
    obtain ⟨d, hd, hor⟩ := handleKeyDown_eq s k
    have hdir : (handleKeyDown s k).direction = s.direction := by rw [hd]
    have hnext : (handleKeyDown s k).nextDirection ≠ opposite (handleKeyDown s k).direction := by
      rw [hd]
      rcases hor with rfl | hne
      · exact hs
      · exact hne
    have := ih (handleKeyDown s k) hnext
    rw [hdir] at this
    exact this

theorem step_direction (s : State) (ev : Event) (s1 : State)
    (hp : s.nextDirection ≠ opposite s.direction) (h : step s ev = some s1) :
    s1.nextDirection ≠ opposite s1.direction := by
  cases ev with
  | key k =>
    simp only [step, Option.some.injEq] at h
    have := foldl_handleKeyDown [k] s hp
    simp only [List.foldl_cons, List.foldl_nil] at this
    rw [← h, this.1]; exact this.2
  | tick rnd =>
    simp only [step] at h
    split_ifs at h
    · obtain ⟨h1, h2⟩ := render_direction s rnd s1 h
      rw [h1, h2]; exact ne_opposite_self _
    · rw [← Option.some.inj h]; exact hp
  | clock =>
    simp only [step] at h
    split_ifs at h
    · obtain ⟨tm, htm⟩ := clockTick_inv s s1 h
      rw [htm]; exact hp
    · rw [← Option.some.inj h]; exact hp
  | resize =>
    simp only [step, Option.some.injEq] at h
    rw [← h]
    rcases onResize_eq s with hr | hr
    · rw [hr]; exact hp
    · obtain ⟨-, -, -, -, -, -, e7, e8, -⟩ := endGame_fields s
      rw [hr, e7, e8]; exact hp

/-- C7. In every reachable state `nextDirection` is not the opposite of
`direction`; and whatever keys arrive between two ticks, the direction the
second tick commits is not the opposite of the one the first committed. -/
theorem direction_never_reverses :
    (∀ s, Reachable s → s.nextDirection ≠ opposite s.direction) ∧
    (∀ (s : State) (rnd1 : Nat → Cell) (s1 : State) (keys : List String)
        (rnd2 : Nat → Cell) (s2 : State),
      render s rnd1 = some s1 → render (keys.foldl handleKeyDown s1) rnd2 = some s2 →
      s2.direction ≠ opposite s1.direction) := by
  constructor
  · apply reachable_induction
    · intro s0 w h rnd s1 hs
      obtain ⟨f, hf⟩ := startGame_eq s0 w h rnd
      rw [hf] at hs
      rw [← Option.some.inj hs]
      exact ne_opposite_self Direction.down
    · exact step_direction
  · intro s rnd1 s1 keys rnd2 s2 h1 h2
    obtain ⟨e1, e2⟩ := render_direction s rnd1 s1 h1
    have hp : s1.nextDirection ≠ opposite s1.direction := by
      rw [e1, e2]; exact ne_opposite_self _
    obtain ⟨-, k2⟩ := foldl_handleKeyDown keys s1 hp
    rw [(render_direction _ rnd2 s2 h2).1]
    exact k2

/-- C7, on the 6-column, 8-row board heading down: the keys ArrowLeft then
ArrowUp arrive between two ticks; the second tick commits left, not up. -/
theorem direction_never_reverses_witness :
    (∃ s, Reachable s ∧ s.nextDirection ≠ opposite s.direction) ∧
    ∃ s1 s2, render board6x8 rndZero = some s1 ∧
      render (["ArrowLeft", "ArrowUp"].foldl handleKeyDown s1) rndZero = some s2 ∧
      s1.direction = Direction.down ∧ s2.direction = Direction.left ∧
      s2.direction ≠ opposite s1.direction := by
  have hreach : Reachable (handleKeyDown boardStarted "ArrowLeft") :=
    ⟨board6x8, 300, 400, rndOnSnake, [Event.key "ArrowLeft"], by decide⟩
  refine ⟨⟨_, hreach, direction_never_reverses.1 _ hreach⟩, ?_⟩
  have h1 : render board6x8 rndZero = some
      { board6x8 with snake := [{ x := 3, y := 3 }, { x := 2, y := 3 }] } := by decide
  have h2 : render (["ArrowLeft", "ArrowUp"].foldl handleKeyDown
      { board6x8 with snake := [{ x := 3, y := 3 }, { x := 2, y := 3 }] }) rndZero = some
      { board6x8 with snake := [{ x := 3, y := 2 }, { x := 3, y := 3 }],
                      direction := Direction.left, nextDirection := Direction.left } := by
    decide
  exact ⟨_, _, h1, h2, rfl, rfl, direction_never_reverses.2 _ _ _ _ _ _ h1 h2⟩

/-- C8. A key press changes no variable but `nextDirection`, which becomes the
direction the spec assigns to the key (`keyDirection`) unless the key has none
or that direction is the opposite of `direction`; then it keeps its value. -/
theorem handleKeyDown_spec (s : State) (k : String) :
    handleKeyDown s k = { s with
      nextDirection :=
        match keyDirection k with
        | some d => if d = opposite s.direction then s.nextDirection else d
        | none => s.nextDirection } := by
  rcases s with ⟨cs, co, ro, ii, ti, hsc, st, sc, tm, sn, dir, nd, fd⟩
  unfold handleKeyDown keyDirection
  by_cases h0 : k = "ArrowLeft"
  · subst h0
    cases dir <;> simp [opposite]
  by_cases h1 : k = "a"
  · subst h1
    cases dir <;> simp [opposite]
  by_cases h2 : k = "A"
  · subst h2
    cases dir <;> simp [opposite]
  by_cases h3 : k = "ArrowRight"
  · subst h3
    cases dir <;> simp [opposite]
  by_cases h4 : k = "d"
  · subst h4
    cases dir <;> simp [opposite]
  by_cases h5 : k = "D"
  · subst h5
    cases dir <;> simp [opposite]
  by_cases h6 : k = "ArrowUp"
  · subst h6
    cases dir <;> simp [opposite]
  by_cases h7 : k = "w"
  · subst h7
    cases dir <;> simp [opposite]
  by_cases h8 : k = "W"
  · subst h8
    cases dir <;> simp [opposite]
  by_cases h9 : k = "ArrowDown"
  · subst h9
    cases dir <;> simp [opposite]
  by_cases h10 : k = "s"
  · subst h10
    cases dir <;> simp [opposite]
  by_cases h11 : k = "S"
  · subst h11
    cases dir <;> simp [opposite]
  simp [h0, h1, h2, h3, h4, h5, h6, h7, h8, h9, h10, h11]

/-! ## Overlap -/

theorem render_nodup (s : State) (rnd : Nat → Cell) (s1 : State) (hn : s.snake.Nodup)
    (h : render s rnd = some s1) : s1.snake.Nodup := by
  obtain ⟨seg0, rest, -, hc | ⟨-, hmem, -, f, hc⟩ | ⟨-, hmem, -, hc⟩⟩ := render_inv s rnd s1 h
  · obtain ⟨-, -, e3, -⟩ := endGame_fields { s with direction := s.nextDirection }
    rw [hc.2, e3]; exact hn
  · rw [hc]; exact List.nodup_cons.mpr ⟨hmem, hn⟩
  · rw [hc]
    exact List.nodup_cons.mpr
      ⟨fun hd => hmem (List.dropLast_subset _ hd), hn.sublist (List.dropLast_sublist _)⟩

theorem step_nodup (s : State) (ev : Event) (s1 : State) (hn : s.snake.Nodup)
    (h : step s ev = some s1) : s1.snake.Nodup := by
  cases ev with
  | key k =>
    obtain ⟨d, hd, -⟩ := handleKeyDown_eq s k
    simp only [step, hd, Option.some.injEq] at h
    rw [← h]; exact hn
  | tick rnd =>
    simp only [step] at h
    split_ifs at h
    · exact render_nodup s rnd s1 hn h
    · rw [← Option.some.inj h]; exact hn
  | clock =>
    simp only [step] at h
    split_ifs at h
    · obtain ⟨tm, htm⟩ := clockTick_inv s s1 h
      rw [htm]; exact hn
    · rw [← Option.some.inj h]; exact hn
  | resize =>
    simp only [step, Option.some.injEq] at h
    rw [← h]
    rcases onResize_eq s with hr | hr
    · rw [hr]; exact hn
    · obtain ⟨-, -, e3, -⟩ := endGame_fields s
      rw [hr, e3]; exact hn

theorem startGame_nodup (s0 : State) (w h : Int) (rnd : Nat → Cell) (s1 : State)
    (hs : startGame s0 w h rnd = some s1) : s1.snake.Nodup := by
  obtain ⟨f, hf⟩ := startGame_eq s0 w h rnd
  rw [hf] at hs
  rw [← Option.some.inj hs]
  simp only [List.nodup_cons, List.mem_singleton, List.not_mem_nil, not_false_eq_true,
    List.nodup_nil, and_true, Cell.mk.injEq]
  omega

/-- C9. No two cells of the snake are equal in any reachable state: the snake
`startGame` builds has two distinct cells, and a tick on a snake without overlap
returns a snake without overlap. -/
theorem snake_no_overlap :
    (∀ s, Reachable s → s.snake.Nodup) ∧
    (∀ (s0 : State) (w h : Int) (rnd : Nat → Cell),
      ∃ s1, startGame s0 w h rnd = some s1 ∧ 8 ≤ s1.rows ∧ 6 ≤ s1.cols ∧ s1.snake.Nodup) ∧
    (∀ (s : State) (rnd : Nat → Cell) (s1 : State),
      s.snake.Nodup → render s rnd = some s1 → s1.snake.Nodup) := by
  refine ⟨reachable_induction _ startGame_nodup step_nodup, ?_, render_nodup⟩
  intro s0 w h rnd
  obtain ⟨f, hf⟩ := startGame_eq s0 w h rnd
  obtain ⟨h8, h6⟩ := computeGridSize_bounds s0 w h
  exact ⟨_, hf, h8, h6, startGame_nodup s0 w h rnd _ hf⟩

/-- C9, on the session started on a 300 by 400 board: after the first tick eats
the food the snake is `[(3,3),(2,3),(1,3)]`, three distinct cells. -/
theorem snake_no_overlap_witness :
    ∃ s, Reachable s ∧ s.snake = [{ x := 3, y := 3 }, { x := 2, y := 3 }, { x := 1, y := 3 }] ∧
      s.snake.Nodup := by
  have hreach : Reachable
      { boardStarted with
        score := 10
        snake := [{ x := 3, y := 3 }, { x := 2, y := 3 }, { x := 1, y := 3 }]
        food := { x := 0, y := 0 } } :=
    ⟨board6x8, 300, 400, rndOnSnake, [Event.tick rndOnSnake], by decide⟩
  exact ⟨_, hreach, rfl, snake_no_overlap.1 _ hreach⟩

/-! ## The first state of a session -/

/-- C10. Whatever the earlier state, the board size and the random samples,
`startGame` returns a state whose grid has at least 8 rows and 6 columns and
whose snake is exactly the two cells `(rows/3, cols/2)` (head) and
`(rows/3 - 1, cols/2)` (tail), both inside the grid, with `direction` and
`nextDirection` down, score 0 and time "00:00". -/
theorem startGame_initial (s0 : State) (w h : Int) (rnd : Nat → Cell) :
    ∃ s1, startGame s0 w h rnd = some s1 ∧ 8 ≤ s1.rows ∧ 6 ≤ s1.cols ∧
      s1.snake = [{ x := s1.rows / 3, y := s1.cols / 2 },
                  { x := s1.rows / 3 - 1, y := s1.cols / 2 }] ∧
      inGrid s1.rows s1.cols { x := s1.rows / 3, y := s1.cols / 2 } ∧
      inGrid s1.rows s1.cols { x := s1.rows / 3 - 1, y := s1.cols / 2 } ∧
      s1.direction = Direction.down ∧ s1.nextDirection = Direction.down ∧
      s1.score = 0 ∧ s1.time = "00:00" := by
  obtain ⟨f, hf⟩ := startGame_eq s0 w h rnd
  obtain ⟨h8, h6⟩ := computeGridSize_bounds s0 w h
  refine ⟨_, hf, h8, h6, rfl, ?_, ?_, rfl, rfl, rfl, rfl⟩
  · unfold inGrid; simp only; omega
  · unfold inGrid; simp only; omega

/-- C10, on a 300 by 400 board: the grid has 8 rows and 6 columns and the snake
is `[(2,3),(1,3)]`. -/
theorem startGame_initial_witness :
    ∃ s1, startGame board6x8 300 400 rndZero = some s1 ∧ s1.rows = 8 ∧ s1.cols = 6 ∧
      s1.snake = [{ x := 2, y := 3 }, { x := 1, y := 3 }] ∧
      s1.direction = Direction.down ∧ s1.nextDirection = Direction.down ∧
      s1.score = 0 ∧ s1.time = "00:00" := by
  obtain ⟨s1, h1, -, -, h2, -, -, h3, h4, h5, h6⟩ := startGame_initial board6x8 300 400 rndZero
  have hstart : startGame board6x8 300 400 rndZero
      = some { boardStarted with food := { x := 0, y := 0 } } := by decide
  have hs1 : s1 = { boardStarted with food := { x := 0, y := 0 } } :=
    Option.some.inj (h1.symm.trans hstart)
  subst hs1
  exact ⟨_, h1, rfl, rfl, rfl, h3, h4, h5, h6⟩

/-! ## Food placement -/

/-- While every sample before the 2001st is on the snake the loop keeps drawing,
and it stops at the 2001st whatever that one is. -/
theorem placeRandomFoodLoop_exhaust (snake : List Cell) (rnd : Nat → Cell) :
    ∀ (fuel tries : Nat), tries ≤ 2000 → 2001 ≤ fuel + tries →
      (∀ i, tries ≤ i → i < 2000 → onSnake snake (rnd i) = true) →
      placeRandomFoodLoop snake rnd fuel tries = some (rnd 2000, 2001) := by
  intro fuel
  induction fuel with
  | zero => intro tries h1 h2; omega
  | succ n ih =>
    intro tries h1 h2 hall
    unfold placeRandomFoodLoop
    by_cases hgt : tries + 1 > 2000
    · have : tries = 2000 := by omega
      subst this
      simp
    · have hon := hall tries (le_refl _) (by omega)
      simp only [hgt, if_false, hon, if_true]
      exact ih (tries + 1) (by omega) (by omega) fun i hi hlt => hall i (by omega) hlt

/-- The loop stops at the first of the first 2000 samples that is off the
snake. -/
theorem placeRandomFoodLoop_first (snake : List Cell) (rnd : Nat → Cell) (j : Nat)
    (hj : j < 2000) (hoff : onSnake snake (rnd j) = false) :
    ∀ (fuel tries : Nat), tries ≤ j → 2001 ≤ fuel + tries →
      (∀ i, tries ≤ i → i < j → onSnake snake (rnd i) = true) →
      placeRandomFoodLoop snake rnd fuel tries = some (rnd j, j + 1) := by
  intro fuel
  induction fuel with
  | zero => intro tries h1 h2; omega
  | succ n ih =>
    intro tries h1 h2 hall
    unfold placeRandomFoodLoop
    have hgt : ¬ tries + 1 > 2000 := by omega
    by_cases heq : tries = j
    · subst heq
      simp [hoff]
    · have hon := hall tries (le_refl _) (by omega)
      simp only [hgt, if_false, hon, if_true]
      exact ih (tries + 1) (by omega) (by omega) fun i hi hlt => hall i (by omega) hlt

/-- Either one of the first 2000 samples is off the snake, and then there is a
first such, or all of them are on it. -/
theorem first_off_snake (snake : List Cell) (rnd : Nat → Cell) (n : Nat) :
    (∀ i, i < n → onSnake snake (rnd i) = true) ∨
    ∃ j, j < n ∧ onSnake snake (rnd j) = false ∧ ∀ i, i < j → onSnake snake (rnd i) = true := by
  induction n with
  | zero => exact Or.inl fun i hi => absurd hi (Nat.not_lt_zero i)
  | succ k ih =>
    rcases ih with hall | ⟨j, hj, hoff, hbefore⟩
    · by_cases hk : onSnake snake (rnd k) = true
      · refine Or.inl fun i hi => ?_
        rcases Nat.lt_succ_iff_lt_or_eq.mp hi with h | h
        · exact hall i h
        · rw [h]; exact hk
      · exact Or.inr ⟨k, Nat.lt_succ_self k, by simpa using hk, hall⟩
    · exact Or.inr ⟨j, Nat.lt_succ_of_lt hj, hoff, hbefore⟩

/-- The result of the loop of `placeRandomFood`, from the start: the number `n`
of samples drawn is between 1 and 2001, the cell returned is the last one
drawn, every sample before it is on the snake, a stop within 2000 samples is a
stop on a cell off the snake, and 2001 samples are drawn exactly when the first
2000 are all on the snake. -/
theorem placeRandomFoodLoop_result (snake : List Cell) (rnd : Nat → Cell) :
    ∃ food n, placeRandomFoodLoop snake rnd 2001 0 = some (food, n) ∧
      1 ≤ n ∧ n ≤ 2001 ∧ food = rnd (n - 1) ∧
      (∀ i, i + 1 < n → rnd i ∈ snake) ∧
      (n ≤ 2000 → food ∉ snake) ∧
      (n = 2001 ↔ ∀ i, i < 2000 → rnd i ∈ snake) := by
  rcases first_off_snake snake rnd 2000 with hall | ⟨j, hj, hoff, hbefore⟩
  · have hloop := placeRandomFoodLoop_exhaust snake rnd 2001 0 (by omega) (by omega)
      fun i _ hi => hall i hi
    refine ⟨rnd 2000, 2001, hloop, by omega, by omega, rfl, ?_, ?_, ?_⟩
    · intro i hi
      exact (onSnake_iff snake _).mp (hall i (by omega))
    · intro h; omega
    · exact ⟨fun _ i hi => (onSnake_iff snake _).mp (hall i hi), fun _ => rfl⟩
  · have hloop := placeRandomFoodLoop_first snake rnd j hj hoff 2001 0 (by omega) (by omega)
      fun i _ hi => hbefore i hi
    refine ⟨rnd j, j + 1, hloop, by omega, by omega, rfl, ?_, ?_, ?_⟩
    · intro i hi
      exact (onSnake_iff snake _).mp (hbefore i (by omega))
    · intro _
      exact (onSnake_eq_false_iff snake _).mp hoff
    · constructor
      · intro h; omega
      · intro h
        exact absurd (h j hj) ((onSnake_eq_false_iff snake _).mp hoff)

/-- C11. The function `placeRandomFood` is to place the food on a cell that is not
on the snake (comment on line 92) whenever a free cell exists. It does not: on
the 6-column, 8-row board with the 2-cell snake `[(2,3),(1,3)]` the cell `(0,0)`
is free, every sample of the stream `rndStuck` is the in-grid cell `(2,3)`, and
the food is left on that snake cell. -/
theorem placeRandomFood_food_on_snake :
    inGrid board6x8.rows board6x8.cols { x := 0, y := 0 } ∧
    ({ x := 0, y := 0 } : Cell) ∉ board6x8.snake ∧
    (∀ i, inGrid board6x8.rows board6x8.cols (rndStuck i)) ∧
    (placeRandomFood board6x8 rndStuck).map (fun s => decide (s.food ∈ board6x8.snake))
      = some true := by
  have hin : ∀ i, inGrid board6x8.rows board6x8.cols (rndStuck i) := by
    intro i
    show inGrid board6x8.rows board6x8.cols { x := 2, y := 3 }
    decide
  have hon : ∀ i, onSnake board6x8.snake (rndStuck i) = true := by
    intro i
    show onSnake board6x8.snake { x := 2, y := 3 } = true
    decide
  refine ⟨by decide, by decide, hin, ?_⟩
  have hloop := placeRandomFoodLoop_exhaust board6x8.snake rndStuck 2001 0 (by omega) (by omega)
    fun i _ _ => hon i
  simp only [placeRandomFood, hloop, Option.map_some']
  decide

/-- What the loop does achieve: `placeRandomFood` always returns, leaving the
snake alone, and the cell it leaves in `food` is off the snake exactly when at
least one of the first 2001 samples is off the snake. -/
theorem placeRandomFood_off_snake (s : State) (rnd : Nat → Cell) :
    ∃ s1, placeRandomFood s rnd = some s1 ∧ s1.snake = s.snake ∧
      (s1.food ∉ s.snake ↔ ∃ j, j ≤ 2000 ∧ rnd j ∉ s.snake) := by
  obtain ⟨food, n, hloop, h1, h2, hfood, hbefore, hoff, hfull⟩ :=
    placeRandomFoodLoop_result s.snake rnd
  refine ⟨{ s with food := food }, by simp [placeRandomFood, hloop], rfl, ?_⟩
  show food ∉ s.snake ↔ _
  constructor
  · intro h
    exact ⟨n - 1, by omega, hfood ▸ h⟩
  · rintro ⟨j, hj, hjoff⟩
    by_cases hn : n ≤ 2000
    · exact hoff hn
    · have hn2 : n = 2001 := by omega
      have hall := hfull.mp hn2
      have hj2 : j = 2000 := by
        by_contra hne
        exact hjoff (hall j (by omega))
      subst hj2
      rw [hfood, hn2]
      exact hjoff

/-- On the 6-column, 8-row board with the 2-cell snake: the stream `rndLate`
draws the snake cell `(2,3)` 2000 times and then `(0,0)`, and the food ends off
the snake. -/
theorem placeRandomFood_off_snake_example :
    ∃ s1, placeRandomFood board6x8 rndLate = some s1 ∧ s1.food ∉ board6x8.snake := by
  obtain ⟨s1, h1, -, h2⟩ := placeRandomFood_off_snake board6x8 rndLate
  exact ⟨s1, h1, h2.mpr ⟨2000, le_refl _, by decide⟩⟩

/-- C12 as stated fails: with the 2-cell snake `[(2,3),(1,3)]` and the stream
`rndLate` the loop draws 2001 samples, and the cell it returns is the 2001st
sample `(0,0)`, which is not the 2000th sample and is not on the snake. -/
theorem placeRandomFood_samples_counterexample :
    placeRandomFoodLoop board6x8.snake rndLate 2001 0 = some (rndLate 2000, 2001) ∧
    ¬ (2001 ≤ 2000) ∧ rndLate 2000 ≠ rndLate 1999 ∧ rndLate 2000 ∉ board6x8.snake := by
  refine ⟨?_, by decide, by decide, by decide⟩
  apply placeRandomFoodLoop_exhaust board6x8.snake rndLate 2001 0 (by omega) (by omega)
  intro i _ hi
  have : rndLate i = { x := 2, y := 3 } := by simp [rndLate, hi]
  rw [this]; decide

/-- C12, amended. For every snake and sample stream `placeRandomFood` draws at
most 2001 samples: if one of the first 2000 is off the snake it stops at the
first such and returns it, and otherwise it stops after the 2001st sample and
returns that one, on the snake or not. -/
theorem placeRandomFood_samples (snake : List Cell) (rnd : Nat → Cell) :
    ∃ food n, placeRandomFoodLoop snake rnd 2001 0 = some (food, n) ∧ n ≤ 2001 ∧
      (∀ j, j < 2000 → rnd j ∉ snake → (∀ i, i < j → rnd i ∈ snake) →
        food = rnd j ∧ n = j + 1) ∧
      ((∀ i, i < 2000 → rnd i ∈ snake) → food = rnd 2000 ∧ n = 2001) := by
  obtain ⟨food, n, hloop, h1, h2, hfood, hbefore, hoff, hfull⟩ :=
    placeRandomFoodLoop_result snake rnd
  refine ⟨food, n, hloop, h2, ?_, ?_⟩
  · intro j hj hjoff hjbefore
    have hn : n = j + 1 := by
      rcases Nat.lt_trichotomy n (j + 1) with h | h | h
      · have hlast : rnd (n - 1) ∈ snake := hjbefore (n - 1) (by omega)
        exact absurd (hfood ▸ hlast) (hoff (by omega))
      · exact h
      · exact absurd (hbefore j h) hjoff
    refine ⟨?_, hn⟩
    rw [hfood, hn]; rfl
  · intro hall
    have hn := hfull.mpr hall
    refine ⟨?_, hn⟩
    rw [hfood, hn]

/-- C12, amended, with the 2-cell snake `[(2,3),(1,3)]`: on `rndOnSnake` the first
sample `(3,3)` is off the snake and one sample is drawn; on `rndStuck` all
samples are on the snake and 2001 are drawn. -/
theorem placeRandomFood_samples_witness :
    placeRandomFoodLoop board6x8.snake rndOnSnake 2001 0 = some ({ x := 3, y := 3 }, 1) ∧
    placeRandomFoodLoop board6x8.snake rndStuck 2001 0 = some ({ x := 2, y := 3 }, 2001) := by
  obtain ⟨food, n, hloop, -, hfirst, -⟩ := placeRandomFood_samples board6x8.snake rndOnSnake
  obtain ⟨food2, n2, hloop2, -, -, hlast⟩ := placeRandomFood_samples board6x8.snake rndStuck
  obtain ⟨e1, e2⟩ := hfirst 0 (by omega) (by decide) (fun i hi => absurd hi (Nat.not_lt_zero i))
  have hon : ∀ i, i < 2000 → rndStuck i ∈ board6x8.snake := by
    intro i _
    show ({ x := 2, y := 3 } : Cell) ∈ board6x8.snake
    decide
  obtain ⟨e3, e4⟩ := hlast hon
  rw [e1, e2] at hloop
  rw [e3, e4] at hloop2
  exact ⟨hloop, hloop2⟩

/-! ## Grid sizing -/

/-- The fields `computeGridSize` writes, in terms of the candidate cell size. -/
theorem computeGridSize_eq (s : State) (w h : Int) :
    (computeGridSize s w h).cellSize = max MIN_CELL (min MAX_CELL (candidateCell (max 100 w))) ∧
    (computeGridSize s w h).cols
      = max 6 (max 100 w / (computeGridSize s w h).cellSize) ∧
    (computeGridSize s w h).rows
      = max 8 (max 100 h / (computeGridSize s w h).cellSize) :=
  ⟨rfl, rfl, rfl⟩

theorem approxColsOf_ge (uw : Int) :
    6 ≤ approxColsRaw uw ∧ approxColsOf uw = approxColsRaw uw := by
  have h6 : 6 ≤ approxColsRaw uw := le_max_left _ _
  refine ⟨h6, ?_⟩
  unfold approxColsOf
  rw [if_neg (by omega)]

theorem candidateCell_bounds (uw : Int) (huw : 100 ≤ uw) :
    0 ≤ candidateCell uw ∧ candidateCell uw ≤ 58 ∧ 6 * candidateCell uw ≤ uw := by
  obtain ⟨h6, heq⟩ := approxColsOf_ge uw
  unfold candidateCell
  rw [heq]
  have hpos : (0 : Int) < approxColsRaw uw := by omega
  have hnonneg : 0 ≤ uw / approxColsRaw uw := Int.ediv_nonneg (by omega) (by omega)
  have hmul : uw / approxColsRaw uw * approxColsRaw uw ≤ uw := Int.ediv_mul_le uw (by omega)
  refine ⟨hnonneg, ?_, by nlinarith⟩
  have hlt : uw < 59 * approxColsRaw uw := by
    have hraw : approxColsRaw uw = max 6 (uw / 50) := rfl
    rw [hraw]
    omega
  have := Int.ediv_lt_of_lt_mul hpos hlt
  omega

/-- A grid axis of `max k (usable / cell)` cells fits the usable length exactly
when `k` cells fit. -/
theorem axis_fits (k usable cell : Int) (hcell : 0 < cell) :
    max k (usable / cell) * cell ≤ usable ↔ k * cell ≤ usable := by
  constructor
  · intro h
    have : k * cell ≤ max k (usable / cell) * cell :=
      mul_le_mul_of_nonneg_right (le_max_left _ _) (le_of_lt hcell)
    exact le_trans this h
  · intro h
    have hk : k ≤ usable / cell := Int.le_ediv_of_mul_le hcell h
    rw [max_eq_right hk]
    exact Int.ediv_mul_le usable (ne_of_gt hcell)

/-- C13. For every measured board size, `computeGridSize` leaves a cell size
between 30 and 70, at least 6 columns and at least 8 rows. -/
theorem computeGridSize_ranges (s : State) (w h : Int) :
    30 ≤ (computeGridSize s w h).cellSize ∧ (computeGridSize s w h).cellSize ≤ 70 ∧
    6 ≤ (computeGridSize s w h).cols ∧ 8 ≤ (computeGridSize s w h).rows := by
  obtain ⟨hcell, hcols, hrows⟩ := computeGridSize_eq s w h
  refine ⟨?_, ?_, ?_, ?_⟩
  · rw [hcell]; exact le_max_left _ _
  · rw [hcell]; exact max_le (by decide) (min_le_left _ _)
  · rw [hcols]; exact le_max_left _ _
  · rw [hrows]; exact le_max_left _ _

/-- C14 as stated fails: on a usable area of 100 by 100 the grid has 6 columns
and 8 rows of 30px cells, 180px wide and 240px high. -/
theorem computeGridSize_fits_counterexample :
    6 ≤ (computeGridSize board6x8 100 100).cols ∧ 8 ≤ (computeGridSize board6x8 100 100).rows ∧
    ¬ ((computeGridSize board6x8 100 100).cols * (computeGridSize board6x8 100 100).cellSize
        ≤ 100) ∧
    ¬ ((computeGridSize board6x8 100 100).rows * (computeGridSize board6x8 100 100).cellSize
        ≤ 100) := by
  decide

/-- C14, amended. For usable width and height of at least 100, the columns fit
the usable width exactly when 6 cells fit it, which is the case whenever the
width is at least 180, and the rows fit the usable height exactly when 8 cells
fit it. -/
theorem computeGridSize_fits (s : State) (w h : Int) (hw : 100 ≤ w) (hh : 100 ≤ h) :
    ((computeGridSize s w h).cols * (computeGridSize s w h).cellSize ≤ w ↔
      6 * (computeGridSize s w h).cellSize ≤ w) ∧
    ((computeGridSize s w h).rows * (computeGridSize s w h).cellSize ≤ h ↔
      8 * (computeGridSize s w h).cellSize ≤ h) ∧
    (180 ≤ w → (computeGridSize s w h).cols * (computeGridSize s w h).cellSize ≤ w) := by
  obtain ⟨hcell, hcols, hrows⟩ := computeGridSize_eq s w h
  have h30 : 30 ≤ (computeGridSize s w h).cellSize := by
    rw [hcell]; exact le_max_left _ _
  rw [max_eq_right hw] at hcell hcols
  rw [max_eq_right hh] at hrows
  have hwfit := axis_fits 6 w (computeGridSize s w h).cellSize (by omega)
  have hhfit := axis_fits 8 h (computeGridSize s w h).cellSize (by omega)
  rw [← hcols] at hwfit
  rw [← hrows] at hhfit
  refine ⟨hwfit, hhfit, fun h180 => hwfit.mpr ?_⟩
  obtain ⟨-, -, h6⟩ := candidateCell_bounds w hw
  have hmin : MIN_CELL = 30 := rfl
  have hmax : MAX_CELL = 70 := rfl
  rw [hcell, hmin, hmax]
  omega

/-- C14, amended, on a usable area of 300 by 400: 6 columns and 8 rows of 50px
cells fill it exactly. -/
theorem computeGridSize_fits_witness :
    (computeGridSize board6x8 300 400).cols * (computeGridSize board6x8 300 400).cellSize ≤ 300 ∧
    (computeGridSize board6x8 300 400).rows * (computeGridSize board6x8 300 400).cellSize
      ≤ 400 := by
  obtain ⟨h1, h2, -⟩ := computeGridSize_fits board6x8 300 400 (by decide) (by decide)
  exact ⟨h1.mpr (by decide), h2.mpr (by decide)⟩

/-- C20. For a usable width of at least 100 the candidate cell size
`floor(usableWidth / approxCols)` is at most 58, so taking the minimum with
`MAX_CELL` leaves it as it is and the final cell size lies between 30 and 58;
and `approxCols` is at least 6, so it is not 0 and the `approxCols === 0` branch
changes nothing. -/
theorem candidateCell_le_58 (uw : Int) (huw : 100 ≤ uw) :
    candidateCell uw ≤ 58 ∧ min MAX_CELL (candidateCell uw) = candidateCell uw ∧
    6 ≤ approxColsRaw uw ∧ approxColsRaw uw ≠ 0 ∧ approxColsOf uw = approxColsRaw uw ∧
    ∀ (s : State) (h : Int),
      (computeGridSize s uw h).cellSize = max MIN_CELL (candidateCell uw) ∧
      30 ≤ (computeGridSize s uw h).cellSize ∧ (computeGridSize s uw h).cellSize ≤ 58 := by
  obtain ⟨h0, h58, -⟩ := candidateCell_bounds uw huw
  obtain ⟨h6, heq⟩ := approxColsOf_ge uw
  have hmin : MIN_CELL = 30 := rfl
  have hmax : MAX_CELL = 70 := rfl
  have hclamp : min MAX_CELL (candidateCell uw) = candidateCell uw := by
    rw [hmax]; exact min_eq_right (by omega)
  refine ⟨h58, hclamp, h6, by omega, heq, fun s h => ?_⟩
  obtain ⟨hcell, -, -⟩ := computeGridSize_eq s uw h
  rw [max_eq_right huw, hclamp] at hcell
  rw [hcell, hmin]
  exact ⟨rfl, le_max_left _ _, max_le (by decide) h58⟩

/-- C20, at a usable width of 349, where the bound is met: 6 columns are aimed
at and the candidate cell size is 58. -/
theorem candidateCell_le_58_witness :
    approxColsOf 349 = 6 ∧ candidateCell 349 = 58 ∧ candidateCell 349 ≤ 58 ∧
    (computeGridSize board6x8 349 400).cellSize = 58 := by
  obtain ⟨h1, -, -, -, -, h2⟩ := candidateCell_le_58 349 (by decide)
  exact ⟨by decide, by decide, h1, by decide⟩

/-! ## The clock -/

theorem padStart2_length (cs : List Char) : 2 ≤ (padStart2 cs).length := by
  unfold padStart2
  rw [List.length_append, List.length_replicate]
  omega

theorem repr_digits (n : Nat) :
    (∀ c ∈ (Nat.repr n).toList, c.isDigit = true) ∧ digitsValue (Nat.repr n).toList = n := by
  constructor
  · rw [repr_toList]
    exact fun c hc => (toDigitsCore_chars (n + 1) n [] (by simp) c hc).1
  · rw [repr_toList]
    unfold digitsValue
    rw [toDigitsCore_value (n + 1) n [] (by omega)]
    rfl

/-- A decimal numeral of a number up to `2^53` reads back as that number. -/
theorem jsNumber_repr (n : Nat) (hn : n ≤ 2 ^ 53) : jsNumber? (Nat.repr n).toList = some n := by
  obtain ⟨hall, hval⟩ := repr_digits n
  unfold jsNumber?
  rw [if_pos (List.all_eq_true.mpr hall), hval]
  exact toDouble_of_le n hn

/-- The clock callback fired `n` times on the time string of `k` seconds, as long
as the minutes stay within `2^53`. -/
theorem clockTicks_formatTime : ∀ (n k : Nat) (s : State), (k + n) / 60 ≤ 2 ^ 53 →
    s.time = formatTime (k / 60) (k % 60) →
    clockTicks n s = some { s with time := formatTime ((k + n) / 60) ((k + n) % 60) } := by
  intro n
  induction n with
  | zero =>
    intro k s _ ht
    simp only [clockTicks, Nat.add_zero]
    rw [← ht]
  | succ j ih =>
    intro k s hb ht
    have hk : k / 60 ≤ 2 ^ 53 := le_trans (Nat.div_le_div_right (by omega)) hb
    have hstep := clockTick_formatTime s (k / 60) (k % 60) hk (Nat.mod_lt _ (by decide)) ht
    have htime : (if k % 60 + 1 ≥ 60 then formatTime (if k / 60 < 2 ^ 53 then k / 60 + 1
          else k / 60) 0
        else formatTime (k / 60) (k % 60 + 1))
        = formatTime ((k + 1) / 60) ((k + 1) % 60) := by
      by_cases hc : k % 60 + 1 ≥ 60
      · rw [if_pos hc]
        have e1 : (k + 1) / 60 = k / 60 + 1 := by omega
        have e2 : (k + 1) % 60 = 0 := by omega
        have hk1 : (k + 1) / 60 ≤ 2 ^ 53 := le_trans (Nat.div_le_div_right (by omega)) hb
        rw [if_pos (by omega), e1, e2]
      · rw [if_neg hc]
        have e1 : (k + 1) / 60 = k / 60 := by omega
        have e2 : (k + 1) % 60 = k % 60 + 1 := by omega
        rw [e1, e2]
    rw [htime] at hstep
    simp only [clockTicks, hstep, Option.some_bind]
    have e : k + 1 + j = k + (j + 1) := by omega
    rw [ih (k + 1) _ (by rw [e]; exact hb) rfl, e]

/-- C15 as stated fails: on the time string of `2^53` minutes and 59 seconds,
"9007199254740992:59", the clock callback writes "9007199254740992:00", not the
time string of `2^53 + 1` minutes and 0 seconds; and on "9007199254740993:00"
it writes "9007199254740992:01". -/
theorem clockTick_stalls_counterexample :
    formatTime (2 ^ 53) 59 = "9007199254740992:59" ∧
    formatTime (2 ^ 53 + 1) 0 = "9007199254740993:00" ∧
    clockTick { board6x8 with time := "9007199254740992:59" }
      = some { board6x8 with time := "9007199254740992:00" } ∧
    clockTick { board6x8 with time := "9007199254740993:00" }
      = some { board6x8 with time := "9007199254740992:01" } := by
  decide

/-- C15, amended. On the time string of `m < 2^53` minutes and `sec < 60` seconds
the clock callback returns the time string of `m` minutes `sec + 1` seconds when
`sec < 59` and of `m + 1` minutes 0 seconds when `sec = 59`; a time string is two
fields around a colon, each at least two characters long and, up to `2^53`,
reading as the decimal number it stands for; and `n` firings from "00:00" give
the time string of `n / 60` minutes and `n % 60` seconds as long as `n / 60` is
at most `2^53`. -/
theorem clockTick_advances :
    (∀ (s : State) (m sec : Nat), m < 2 ^ 53 → sec < 60 → s.time = formatTime m sec →
      clockTick s = some { s with
        time := if sec < 59 then formatTime m (sec + 1) else formatTime (m + 1) 0 }) ∧
    (∀ (m sec : Nat), m ≤ 2 ^ 53 → sec ≤ 2 ^ 53 → ∃ mField sField,
      (formatTime m sec).toList = mField ++ ':' :: sField ∧
      splitColon (formatTime m sec).toList = [mField, sField] ∧
      2 ≤ mField.length ∧ 2 ≤ sField.length ∧
      jsNumber? mField = some m ∧ jsNumber? sField = some sec) ∧
    (∀ (s : State) (n : Nat), n / 60 ≤ 2 ^ 53 → s.time = "00:00" →
      clockTicks n s = some { s with time := formatTime (n / 60) (n % 60) }) := by
  refine ⟨?_, ?_, ?_⟩
  · intro s m sec hm hsec ht
    rw [clockTick_formatTime s m sec (le_of_lt hm) hsec ht]
    by_cases h59 : sec < 59
    · rw [if_neg (by omega), if_pos h59]
    · rw [if_pos (by omega), if_neg h59, if_pos hm]
  · intro m sec hm hsec
    obtain ⟨hm1, hm2⟩ := jsNumber_padStart2_repr m hm
    obtain ⟨hs1, hs2⟩ := jsNumber_padStart2_repr sec hsec
    refine ⟨padStart2 (Nat.repr m).toList, padStart2 (Nat.repr sec).toList, rfl, ?_,
      padStart2_length _, padStart2_length _, hm1, hs1⟩
    show splitColon (padStart2 (Nat.repr m).toList ++ ':' :: padStart2 (Nat.repr sec).toList) = _
    rw [splitColon_append _ _ hm2, splitColon_noColon _ hs2]
  · intro s n hn ht
    have h00 : "00:00" = formatTime (0 / 60) (0 % 60) := by decide
    have := clockTicks_formatTime n 0 s (by rw [Nat.zero_add]; exact hn) (ht.trans h00)
    rw [Nat.zero_add] at this
    exact this

/-- C15, amended, on the 6-column, 8-row board with the clock at "00:59": one
firing gives "01:00", and 3600 firings from "00:00" give "60:00". -/
theorem clockTick_advances_witness :
    clockTick boardAt59 = some { boardAt59 with time := "01:00" } ∧
    clockTicks 3600 boardStarted = some { boardStarted with time := "60:00" } := by
  have h59 : boardAt59.time = formatTime 0 59 := by decide
  have h1 := clockTick_advances.1 boardAt59 0 59 (by decide) (by decide) h59
  have h2 := clockTick_advances.2.2 boardStarted 3600 (by decide) rfl
  have e1 : (if 59 < 59 then formatTime 0 (59 + 1) else formatTime (0 + 1) 0) = "01:00" := by
    decide
  have e2 : formatTime (3600 / 60) (3600 % 60) = "60:00" := by decide
  rw [e1] at h1
  rw [e2] at h2
  exact ⟨h1, h2⟩

/-! ## High score -/

/-- C16 as stated fails: with score `10^21` over a high score of 80 the string
`endGame` stores is "1e+21", which is not a string of decimal digits. -/
theorem endGame_stored_counterexample :
    scoreGt boardScoreHuge.score boardScoreHuge.highScore = true ∧
    (endGame boardScoreHuge).stored = Stored.text "1e+21" ∧
    "1e+21".toList.all Char.isDigit = false := by
  decide

/-- C16, amended. The function `endGame` leaves the score as it is. The high score
becomes the maximum of its old value and the score, so it does not decrease: an
integer `h` becomes `max h score`, a non-integer between `lo` and `lo + 1` is
replaced by the score exactly when the score is above `lo`, `-Infinity` is
replaced, `Infinity` and `NaN` stay. The stored item is left alone when the
score is not greater than the old high score, and is rewritten when it is
greater: for a score up to `2^53`, to the decimal numeral of the score. -/
theorem endGame_highScore (s : State) :
    (endGame s).score = s.score ∧
    (∀ h : Int, s.highScore = JsNum.int h →
      (endGame s).highScore = JsNum.int (max h (s.score : Int)) ∧
      h ≤ max h (s.score : Int) ∧
      (¬ (s.score : Int) > h → (endGame s).stored = s.stored) ∧
      ((s.score : Int) > h → s.score ≤ 2 ^ 53 →
        (endGame s).stored = Stored.text (toString s.score))) ∧
    (∀ lo : Int, s.highScore = JsNum.frac lo →
      (endGame s).highScore
        = if (s.score : Int) > lo then JsNum.int (s.score : Int) else JsNum.frac lo) ∧
    (s.highScore = JsNum.negInf → (endGame s).highScore = JsNum.int (s.score : Int)) ∧
    (s.highScore = JsNum.posInf → (endGame s).highScore = JsNum.posInf) ∧
    (s.highScore = JsNum.nan → (endGame s).highScore = JsNum.nan) ∧
    (scoreGt s.score s.highScore = false → (endGame s).stored = s.stored) ∧
    (scoreGt s.score s.highScore = true → s.score ≤ 2 ^ 53 →
      (endGame s).stored = Stored.text (toString s.score)) ∧
    (s.score ≤ 2 ^ 53 → jsNumber? (toString s.score).toList = some s.score) := by
  have hkeep : scoreGt s.score s.highScore = false →
      (endGame s).highScore = s.highScore ∧ (endGame s).stored = s.stored := by
    intro h
    unfold endGame
    simp [h]
  have hwrite : scoreGt s.score s.highScore = true →
      (endGame s).highScore = JsNum.int (s.score : Int) ∧
      (s.score ≤ 2 ^ 53 → (endGame s).stored = Stored.text (toString s.score)) := by
    intro h
    unfold endGame
    simp only [h, if_true, true_and]
    intro hle
    simp only [numberToString?, if_pos hle]
    rfl
  refine ⟨(endGame_fields s).2.2.2.2.1, ?_, ?_, ?_, ?_, ?_, fun h => (hkeep h).2,
    fun h => (hwrite h).2, jsNumber_repr s.score⟩
  · intro h hh
    by_cases hgt : (s.score : Int) > h
    · have hg : scoreGt s.score s.highScore = true := by rw [hh]; simp [scoreGt, hgt]
      exact ⟨by rw [(hwrite hg).1, max_eq_right (le_of_lt hgt)], le_max_left _ _,
        fun hn => absurd hgt hn, fun _ => (hwrite hg).2⟩
    · have hg : scoreGt s.score s.highScore = false := by rw [hh]; simp [scoreGt, hgt]
      exact ⟨by rw [(hkeep hg).1, hh, max_eq_left (not_lt.mp hgt)], le_max_left _ _,
        fun _ => (hkeep hg).2, fun hp => absurd hp hgt⟩
  · intro lo hh
    by_cases hgt : (s.score : Int) > lo
    · have hg : scoreGt s.score s.highScore = true := by rw [hh]; simp [scoreGt, hgt]
      rw [(hwrite hg).1, if_pos hgt]
    · have hg : scoreGt s.score s.highScore = false := by rw [hh]; simp [scoreGt, hgt]
      rw [(hkeep hg).1, hh, if_neg hgt]
  · intro hh
    exact (hwrite (by rw [hh]; rfl)).1
  · intro hh
    rw [(hkeep (by rw [hh]; rfl)).1, hh]
  · intro hh
    rw [(hkeep (by rw [hh]; rfl)).1, hh]

/-- C16, amended, with score 120 and a stored high score of 80: the high score
becomes 120 and "120" is stored. -/
theorem endGame_highScore_witness :
    (endGame boardScore120).highScore = JsNum.int 120 ∧
    (endGame boardScore120).stored = Stored.text "120" ∧ (endGame boardScore120).score = 120 := by
  obtain ⟨h1, h2, -⟩ := endGame_highScore boardScore120
  obtain ⟨h3, -, -, h4⟩ := h2 80 rfl
  exact ⟨h3, h4 (by decide) (by decide), h1⟩

/-! ## Shape of the snake -/

/-- What an event does to the grid and the snake: the grid is kept, and the snake
is either kept or gets the moved head (inside the grid, off the old snake) put
in front of the old snake, whole or without its last cell. -/
theorem step_snake_cases (s : State) (ev : Event) (s1 : State) (h : step s ev = some s1) :
    s1.rows = s.rows ∧ s1.cols = s.cols ∧
    (s1.snake = s.snake ∨
      ∃ seg0 rest, s.snake = seg0 :: rest ∧
        inGrid s.rows s.cols (moveHead s.nextDirection seg0) ∧
        moveHead s.nextDirection seg0 ∉ s.snake ∧
        (s1.snake = moveHead s.nextDirection seg0 :: s.snake ∨
         s1.snake = moveHead s.nextDirection seg0 :: s.snake.dropLast)) := by
  cases ev with
  | key k =>
    obtain ⟨d, hd, -⟩ := handleKeyDown_eq s k
    simp only [step, hd, Option.some.injEq] at h
    rw [← h]
    exact ⟨rfl, rfl, Or.inl rfl⟩
  | tick rnd =>
    simp only [step] at h
    split_ifs at h
    · obtain ⟨seg0, rest, hs, hc | ⟨h1, h2, -, f, hc⟩ | ⟨h1, h2, -, hc⟩⟩ := render_inv s rnd s1 h
      · obtain ⟨-, -, e3, -, -, -, -, -, e9, e10⟩ :=
          endGame_fields { s with direction := s.nextDirection }
        rw [hc.2]
        exact ⟨e9, e10, Or.inl e3⟩
      · rw [hc]
        exact ⟨rfl, rfl, Or.inr ⟨seg0, rest, hs, h1, h2, Or.inl rfl⟩⟩
      · rw [hc]
        exact ⟨rfl, rfl, Or.inr ⟨seg0, rest, hs, h1, h2, Or.inr rfl⟩⟩
    · rw [← Option.some.inj h]
      exact ⟨rfl, rfl, Or.inl rfl⟩
  | clock =>
    simp only [step] at h
    split_ifs at h
    · obtain ⟨tm, htm⟩ := clockTick_inv s s1 h
      rw [htm]
      exact ⟨rfl, rfl, Or.inl rfl⟩
    · rw [← Option.some.inj h]
      exact ⟨rfl, rfl, Or.inl rfl⟩
  | resize =>
    simp only [step, Option.some.injEq] at h
    rw [← h]
    rcases onResize_eq s with hr | hr
    · rw [hr]
      exact ⟨rfl, rfl, Or.inl rfl⟩
    · obtain ⟨-, -, e3, -, -, -, -, -, e9, e10⟩ := endGame_fields s
      rw [hr]
      exact ⟨e9, e10, Or.inl e3⟩

theorem moveHead_adjacent (d : Direction) (c : Cell) : Adjacent (moveHead d c) c := by
  unfold Adjacent
  cases d <;> simp [moveHead]

/-- C18. In every reachable state every snake cell lies in
`[0,rows) x [0,cols)`. -/
theorem snake_in_grid (s : State) (hr : Reachable s) :
    ∀ c ∈ s.snake, inGrid s.rows s.cols c := by
  revert s
  apply reachable_induction
  · intro s0 w h rnd s1 hs
    obtain ⟨f, hf⟩ := startGame_eq s0 w h rnd
    obtain ⟨h8, h6⟩ := computeGridSize_bounds s0 w h
    rw [hf] at hs
    rw [← Option.some.inj hs]
    intro c hc
    simp only [List.mem_cons, List.mem_singleton, List.not_mem_nil, or_false] at hc
    rcases hc with rfl | rfl
    · unfold inGrid; simp only; omega
    · unfold inGrid; simp only; omega
  · intro s ev s1 hp h
    obtain ⟨hrows, hcols, hsame | ⟨seg0, rest, -, hin, -, hcons | hcons⟩⟩ :=
      step_snake_cases s ev s1 h
    · rw [hrows, hcols, hsame]; exact hp
    · rw [hrows, hcols, hcons]
      intro c hc
      rcases List.mem_cons.mp hc with rfl | hc
      · exact hin
      · exact hp c hc
    · rw [hrows, hcols, hcons]
      intro c hc
      rcases List.mem_cons.mp hc with rfl | hc
      · exact hin
      · exact hp c (List.dropLast_subset _ hc)

/-- C18, on the session started on a 300 by 400 board, after the first tick has
eaten the food: the three snake cells lie in the 8 by 6 grid. -/
theorem snake_in_grid_witness :
    inGrid 8 6 { x := 3, y := 3 } ∧ inGrid 8 6 { x := 2, y := 3 } ∧
    inGrid 8 6 { x := 1, y := 3 } := by
  have hreach : Reachable
      { boardStarted with
        score := 10
        snake := [{ x := 3, y := 3 }, { x := 2, y := 3 }, { x := 1, y := 3 }]
        food := { x := 0, y := 0 } } :=
    ⟨board6x8, 300, 400, rndOnSnake, [Event.tick rndOnSnake], by decide⟩
  have h := snake_in_grid _ hreach
  exact ⟨h _ (by simp), h _ (by simp), h _ (by simp)⟩

/-- C19. In every reachable state each pair of consecutive snake segments is
orthogonally adjacent. -/
theorem snake_connected (s : State) (hr : Reachable s) : s.snake.Chain' Adjacent := by
  revert s
  apply reachable_induction
  · intro s0 w h rnd s1 hs
    obtain ⟨f, hf⟩ := startGame_eq s0 w h rnd
    rw [hf] at hs
    rw [← Option.some.inj hs]
    refine List.chain'_pair.mpr (Or.inr ⟨rfl, Or.inl ?_⟩)
    simp only
    omega
  · intro s ev s1 hp h
    obtain ⟨-, -, hsame | ⟨seg0, rest, hs, -, -, hcons | hcons⟩⟩ := step_snake_cases s ev s1 h
    · rw [hsame]; exact hp
    · rw [hcons, hs]
      exact List.Chain'.cons (moveHead_adjacent _ _) (hs ▸ hp)
    · have hfull : List.Chain' Adjacent (moveHead s.nextDirection seg0 :: seg0 :: rest) :=
        List.Chain'.cons (moveHead_adjacent _ _) (hs ▸ hp)
      have := hfull.init
      rw [List.dropLast_cons₂] at this
      rw [hcons, hs]
      exact this

/-- C19, on the session started on a 300 by 400 board, after a tick that eats, a
tick down, the key `a` and a tick left: the snake `[(4,2),(4,3),(3,3)]` turns a
corner and its consecutive cells are adjacent. -/
theorem snake_connected_witness :
    List.Chain' Adjacent [({ x := 4, y := 2 } : Cell), { x := 4, y := 3 }, { x := 3, y := 3 }] := by
  have hreach : Reachable
      { boardStarted with
        score := 10
        snake := [{ x := 4, y := 2 }, { x := 4, y := 3 }, { x := 3, y := 3 }]
        direction := Direction.left
        nextDirection := Direction.left
        food := { x := 0, y := 0 } } :=
    ⟨board6x8, 300, 400, rndOnSnake,
      [Event.tick rndOnSnake, Event.tick rndZero, Event.key "a", Event.tick rndZero], by decide⟩
  exact snake_connected _ hreach


/-! ## Loading the high score -/

theorem isDigit_toNat (c : Char) (h : c.isDigit = true) : 48 ≤ c.toNat ∧ c.toNat ≤ 57 := by
  simp only [Char.isDigit, Bool.and_eq_true, decide_eq_true_eq, ge_iff_le, UInt32.le_def,
    BitVec.le_def] at h
  have e1 : (UInt32.toBitVec 48).toNat = 48 := rfl
  have e2 : (UInt32.toBitVec 57).toNat = 57 := rfl
  rw [e1, e2] at h
  exact h

theorem isDigit_not_whiteSpace (c : Char) (h : c.isDigit = true) : isJsWhiteSpace c = false := by
  obtain ⟨h1, h2⟩ := isDigit_toNat c h
  unfold isJsWhiteSpace
  generalize c.toNat = n at h1 h2
  simp only [Bool.or_eq_false_iff, Bool.and_eq_false_iff, beq_eq_false_iff_ne, ne_eq,
    decide_eq_false_iff_not]
  omega

theorem dropWhile_eq_self (p : Char → Bool) (l : List Char) (h : ∀ c ∈ l, p c = false) :
    l.dropWhile p = l := by
  cases l with
  | nil => rfl
  | cons c rest =>
    rw [List.dropWhile_cons_of_neg]
    rw [h c (List.mem_cons_self _ _)]
    exact Bool.false_ne_true

/-- Trimming leaves a string without white space as it is. -/
theorem trimJs_eq_self (l : List Char) (h : ∀ c ∈ l, isJsWhiteSpace c = false) :
    trimJs l = l := by
  unfold trimJs
  rw [dropWhile_eq_self _ l h,
    dropWhile_eq_self _ l.reverse (fun c hc => h c (List.mem_reverse.mp hc)),
    List.reverse_reverse]

/-- A non-empty run of digits is a decimal literal with no fraction and no
exponent. -/
theorem splitDecimal_digits (ds : List Char) (hne : ds ≠ [])
    (hall : ∀ c ∈ ds, c.isDigit = true) : splitDecimal? ds = some (ds, [], 0) := by
  have htake : ds.takeWhile Char.isDigit = ds := List.takeWhile_eq_self_iff.mpr hall
  have hdrop : ds.dropWhile Char.isDigit = [] := List.dropWhile_eq_nil_iff.mpr hall
  unfold splitDecimal?
  simp only [htake, hdrop]
  have hemp : ds.isEmpty = false := by
    cases ds with
    | nil => exact absurd rfl hne
    | cons c rest => rfl
  simp [hemp]

/-- The number for an optionally signed run of digits denoting at most `2^53`. -/
theorem signedDecimal_digits (neg : Bool) (ds : List Char) (hne : ds ≠ [])
    (hall : ∀ c ∈ ds, c.isDigit = true) (hle : digitsValue ds ≤ 2 ^ 53) :
    (match splitDecimal? ds with
      | some (intPart, fracPart, e) => decimalValue neg intPart fracPart e
      | none => some JsNum.nan)
      = some (JsNum.int (if neg then -(digitsValue ds : Int) else (digitsValue ds : Int))) := by
  rw [splitDecimal_digits ds hne hall]
  simp only [decimalValue, List.append_nil, List.length_nil, Int.Nat.cast_ofNat_Int, sub_zero,
    ge_iff_le, le_refl, if_true, Int.toNat_zero, pow_zero, mul_one]
  by_cases h0 : digitsValue ds = 0
  · simp [h0]
  · have h400 : ¬ ((0 : Int) > 400) := by decide
    simp only [h0, if_false, h400]
    unfold intNumber?
    rw [toDouble_of_le _ hle]

theorem digits_not_infinity (ds : List Char) (hall : ∀ c ∈ ds, c.isDigit = true) :
    ds ≠ "Infinity".toList := by
  intro h
  have := hall 'I' (by rw [h]; decide)
  exact absurd this (by decide)

/-- The string `Number` reads an optionally signed run of digits as the integer
it denotes, up to `2^53`. -/
theorem numberOfString_digits (ds : List Char) (hne : ds ≠ [])
    (hall : ∀ c ∈ ds, c.isDigit = true) (hle : digitsValue ds ≤ 2 ^ 53) :
    numberOfString ds = some (JsNum.int (digitsValue ds : Int)) ∧
    numberOfString ('+' :: ds) = some (JsNum.int (digitsValue ds : Int)) ∧
    numberOfString ('-' :: ds) = some (JsNum.int (-(digitsValue ds : Int))) := by
  have hws : ∀ c ∈ ds, isJsWhiteSpace c = false := fun c hc =>
    isDigit_not_whiteSpace c (hall c hc)
  have hinf := digits_not_infinity ds hall
  have hpos := signedDecimal_digits false ds hne hall hle
  have hneg := signedDecimal_digits true ds hne hall hle
  simp only [if_true, Bool.false_eq_true, if_false] at hpos hneg
  obtain ⟨d0, rest, rfl⟩ := List.exists_cons_of_ne_nil hne
  have hd0 := isDigit_toNat d0 (hall d0 (List.mem_cons_self _ _))
  have hsign : splitSign (d0 :: rest) = (false, d0 :: rest) := by
    unfold splitSign
    split
    · rename_i heq
      have : d0 = '-' := (List.cons.inj heq).1
      rw [this] at hd0
      exact absurd hd0 (by decide)
    · rename_i heq
      have : d0 = '+' := (List.cons.inj heq).1
      rw [this] at hd0
      exact absurd hd0 (by decide)
    · rfl
  have hplain : signedDecimal (d0 :: rest) = some (JsNum.int (digitsValue (d0 :: rest) : Int)) := by
    unfold signedDecimal
    rw [hsign]
    simp only [hinf, if_false, Bool.false_eq_true]
    exact hpos
  have hplus : signedDecimal ('+' :: d0 :: rest)
      = some (JsNum.int (digitsValue (d0 :: rest) : Int)) := by
    unfold signedDecimal
    have : splitSign ('+' :: d0 :: rest) = (false, d0 :: rest) := rfl
    rw [this]
    simp only [hinf, if_false, Bool.false_eq_true]
    exact hpos
  have hminus : signedDecimal ('-' :: d0 :: rest)
      = some (JsNum.int (-(digitsValue (d0 :: rest) : Int))) := by
    unfold signedDecimal
    have : splitSign ('-' :: d0 :: rest) = (true, d0 :: rest) := rfl
    rw [this]
    simp only [hinf, if_false, if_true]
    exact hneg
  refine ⟨?_, ?_, ?_⟩
  · unfold numberOfString
    rw [trimJs_eq_self _ hws]
    cases rest with
    | nil => exact hplain
    | cons d1 rest2 =>
      have hd1 := isDigit_toNat d1 (hall d1 (by simp))
      have hx : ¬ (d0 = '0' ∧ (d1 = 'x' ∨ d1 = 'X')) := by
        rintro ⟨-, h | h⟩ <;> (rw [h] at hd1; exact absurd hd1 (by decide))
      have ho : ¬ (d0 = '0' ∧ (d1 = 'o' ∨ d1 = 'O')) := by
        rintro ⟨-, h | h⟩ <;> (rw [h] at hd1; exact absurd hd1 (by decide))
      have hb : ¬ (d0 = '0' ∧ (d1 = 'b' ∨ d1 = 'B')) := by
        rintro ⟨-, h | h⟩ <;> (rw [h] at hd1; exact absurd hd1 (by decide))
      simp only [hx, ho, hb, if_false]
      exact hplain
  · have hws2 : ∀ c ∈ '+' :: d0 :: rest, isJsWhiteSpace c = false := by
      intro c hc
      rcases List.mem_cons.mp hc with rfl | hc
      · decide
      · exact hws c hc
    unfold numberOfString
    rw [trimJs_eq_self _ hws2]
    have h0 : ¬ (('+' : Char) = '0') := by decide
    simp only [h0, false_and, if_false]
    exact hplus
  · have hws2 : ∀ c ∈ '-' :: d0 :: rest, isJsWhiteSpace c = false := by
      intro c hc
      rcases List.mem_cons.mp hc with rfl | hc
      · decide
      · exact hws c hc
    unfold numberOfString
    rw [trimJs_eq_self _ hws2]
    have h0 : ¬ (('-' : Char) = '0') := by decide
    simp only [h0, false_and, if_false]
    exact hminus

theorem eq_none_of_isSome_false {α : Type} (o : Option α) (h : o.isSome = false) : o = none := by
  cases o with
  | none => rfl
  | some a => exact absurd h (by simp)

/-- A trimmed, non-empty string that is no numeric literal reads as `NaN`. -/
theorem numberOfString_nan (cs : List Char) (hne : trimJs cs ≠ [])
    (hlit : isStrNumericLiteral (trimJs cs) = false) : numberOfString cs = some JsNum.nan := by
  unfold numberOfString
  generalize trimJs cs = t at hne hlit
  unfold isStrNumericLiteral at hlit
  simp only [Bool.or_eq_false_iff, decide_eq_false_iff_not] at hlit
  obtain ⟨⟨hradix, hinf⟩, hdec⟩ := hlit
  have hsigned : signedDecimal t = some JsNum.nan := by
    unfold signedDecimal
    rw [if_neg hinf, eq_none_of_isSome_false _ hdec]
  cases t with
  | nil => exact absurd rfl hne
  | cons c0 rest =>
    cases rest with
    | nil => exact hsigned
    | cons c1 ds =>
      simp only [Bool.and_eq_false_iff, Bool.or_eq_false_iff, decide_eq_false_iff_not] at hradix
      simp only
      by_cases h0 : c0 = '0'
      · obtain ⟨⟨hx, ho⟩, hb⟩ := hradix.resolve_left (not_not.mpr h0)
        by_cases h16 : c1 = 'x' ∨ c1 = 'X'
        · have hv := eq_none_of_isSome_false _ (hx.resolve_left (not_not.mpr h16))
          rw [if_pos ⟨h0, h16⟩]
          unfold radixNumber
          rw [hv]
        · rw [if_neg (fun h => h16 h.2)]
          by_cases h8 : c1 = 'o' ∨ c1 = 'O'
          · have hv := eq_none_of_isSome_false _ (ho.resolve_left (not_not.mpr h8))
            rw [if_pos ⟨h0, h8⟩]
            unfold radixNumber
            rw [hv]
          · rw [if_neg (fun h => h8 h.2)]
            by_cases h2 : c1 = 'b' ∨ c1 = 'B'
            · have hv := eq_none_of_isSome_false _ (hb.resolve_left (not_not.mpr h2))
              rw [if_pos ⟨h0, h2⟩]
              unfold radixNumber
              rw [hv]
            · rw [if_neg (fun h => h2 h.2)]
              exact hsigned
      · rw [if_neg (fun h => h0 h.1), if_neg (fun h => h0 h.1), if_neg (fun h => h0 h.1)]
        exact hsigned

/-- C17 as stated fails: the stored item "abc" is present and is no decimal
integer, and the high score loaded from it is `NaN`, not 0; and the decimal
integer string "9007199254740993" loads as 9007199254740992. -/
theorem loadHighScore_counterexample :
    loadHighScore (some "abc") = some JsNum.nan ∧
    loadHighScore (some "abc") ≠ some (JsNum.int 0) ∧
    loadHighScore (some "9007199254740993") = some (JsNum.int 9007199254740992) ∧
    loadHighScore (some "9007199254740993") ≠ some (JsNum.int 9007199254740993) := by
  decide

/-- C17, amended. The high score loaded at start is 0 when the stored item is
absent, empty or only white space, and it is the integer denoted when the item
is a run of decimal digits, with or without a sign in front, denoting at most
`2^53`; so the numeral `endGame` writes for a score up to `2^53` loads as that
score. -/
theorem loadHighScore_spec :
    loadHighScore none = some (JsNum.int 0) ∧
    (∀ str : String, trimJs str.toList = [] → loadHighScore (some str) = some (JsNum.int 0)) ∧
    (∀ ds : List Char, ds ≠ [] → (∀ c ∈ ds, c.isDigit = true) → digitsValue ds ≤ 2 ^ 53 →
      loadHighScore (some (String.mk ds)) = some (JsNum.int (digitsValue ds : Int)) ∧
      loadHighScore (some (String.mk ('+' :: ds))) = some (JsNum.int (digitsValue ds : Int)) ∧
      loadHighScore (some (String.mk ('-' :: ds)))
        = some (JsNum.int (-(digitsValue ds : Int)))) ∧
    (∀ n : Nat, n ≤ 2 ^ 53 → loadHighScore (some (toString n)) = some (JsNum.int (n : Int))) := by
  have hload : ∀ cs : List Char, cs ≠ [] →
      loadHighScore (some (String.mk cs)) = numberOfString cs := by
    intro cs hcs
    show (if cs = [] then some (JsNum.int 0) else numberOfString cs) = _
    rw [if_neg hcs]
  refine ⟨rfl, ?_, ?_, ?_⟩
  · intro str htrim
    unfold loadHighScore
    simp only
    split_ifs
    · rfl
    · unfold numberOfString
      rw [htrim]
  · intro ds hne hall hle
    obtain ⟨h1, h2, h3⟩ := numberOfString_digits ds hne hall hle
    exact ⟨(hload ds hne).trans h1, (hload _ (by simp)).trans h2, (hload _ (by simp)).trans h3⟩
  · intro n hn
    obtain ⟨hall, hval⟩ := repr_digits n
    have hne : (Nat.repr n).toList ≠ [] := by
      intro h
      rw [h] at hval
      have h0 : n = 0 := hval.symm
      rw [h0] at h
      exact absurd h (by decide)
    obtain ⟨h1, -, -⟩ := numberOfString_digits (Nat.repr n).toList hne hall (by rw [hval]; exact hn)
    rw [hval] at h1
    exact (hload _ hne).trans h1

/-- C17, amended, on stored items: "120" loads as 120, "-5" as -5, "007" as 7 and
three spaces as 0. -/
theorem loadHighScore_spec_witness :
    loadHighScore (some "120") = some (JsNum.int 120) ∧
    loadHighScore (some "-5") = some (JsNum.int (-5)) ∧
    loadHighScore (some "007") = some (JsNum.int 7) ∧
    loadHighScore (some "   ") = some (JsNum.int 0) := by
  obtain ⟨-, hblank, hdigits, hnum⟩ := loadHighScore_spec
  have h5 := (hdigits ['5'] (by simp) (by decide) (by decide)).2.2
  have h7 := (hdigits ['0', '0', '7'] (by simp) (by decide) (by decide)).1
  exact ⟨hnum 120 (by decide), h5, h7, hblank "   " (by decide)⟩

/-- The model of `Number(str)` on other stored items: a fraction, an exponent, a
hexadecimal integer, an infinity, padding white space, and strings that are no
numeric literal. -/
theorem loadHighScore_examples :
    loadHighScore (some "12.5") = some (JsNum.frac 12) ∧
    loadHighScore (some "1e3") = some (JsNum.int 1000) ∧
    loadHighScore (some "0x1A") = some (JsNum.int 26) ∧
    loadHighScore (some "Infinity") = some JsNum.posInf ∧
    loadHighScore (some " 42 ") = some (JsNum.int 42) ∧
    loadHighScore (some "12abc") = some JsNum.nan ∧
    loadHighScore (some "high") = some JsNum.nan := by
  decide

end SnakeJS
